import Mathlib

/-
  Verification development for the autosheet spreadsheet calculation engine
  (src/src/lib/engine.js, src/src/lib/parser.js, src/src/lib/errors.js).

  The JavaScript sources are shallowly embedded:
  * JS numbers are modelled as exact rationals (ℚ); NaN and the infinities are
    represented by `none` in `Option ℚ` results of coercions.
  * JS exceptions are modelled with `Except String`.
  * The mutable visit `Set` of the evaluator is modelled by explicit state
    passing of a `List String`.
  * Recursive evaluation and parsing use a fuel parameter; `fuelOut` marks the
    artificial out-of-fuel result, which never occurs for sufficient fuel.
  * String manipulation mirrors the JS string primitives
    (`toUpperCase`, `trim`, `split`, …) on the character-list model of strings,
    restricted to the ASCII fragment the engine manipulates.
-/

namespace Autosheet

/-! ### Character and string helpers (models of the JS string primitives) -/

/-- Model of the JS test `ch >= '0' && ch <= '9'` (parser.js `isDigit`). -/
def isDigitChar (c : Char) : Bool := decide (48 ≤ c.toNat ∧ c.toNat ≤ 57)

/-- Model of the JS test for ASCII letters (parser.js `isAlpha`, regex `[A-Za-z]`). -/
def isAlphaChar (c : Char) : Bool :=
  decide ((65 ≤ c.toNat ∧ c.toNat ≤ 90) ∨ (97 ≤ c.toNat ∧ c.toNat ≤ 122))

/-- ASCII lower-case letter test. -/
def isLowerAlpha (c : Char) : Bool := decide (97 ≤ c.toNat ∧ c.toNat ≤ 122)

/-- Model of `String.prototype.toUpperCase` on one character (ASCII fragment). -/
def jsCharToUpper (c : Char) : Char :=
  if isLowerAlpha c then Char.ofNat (c.toNat - 32) else c

/-- Model of `String.prototype.toUpperCase` (ASCII fragment). -/
def jsToUpper (s : String) : String := String.mk (s.data.map jsCharToUpper)

/-- Model of the JS whitespace class `\s` for the characters the engine meets. -/
def isWsChar (c : Char) : Bool := c = ' ' ∨ c = '\t' ∨ c = '\n' ∨ c = '\r'

/-- Model of `String.prototype.trim`. -/
def jsTrim (s : String) : String :=
  String.mk (((s.data.dropWhile isWsChar).reverse.dropWhile isWsChar).reverse)

/-- Emptiness test on the character-list model of strings. -/
def strIsEmpty (s : String) : Bool := s.data.isEmpty

/-- Model of `String.prototype.startsWith` on character lists. -/
def strStartsWithAux : List Char → List Char → Bool
  | _, [] => true
  | [], _ :: _ => false
  | c :: cs, p :: ps => c = p && strStartsWithAux cs ps

/-- Model of `String.prototype.startsWith`. -/
def strStartsWith (s pre : String) : Bool := strStartsWithAux s.data pre.data

/-- Model of `String.prototype.slice(1)` (drop the leading character). -/
def strDrop1 (s : String) : String := String.mk (s.data.drop 1)

/-- Rejoin string parts with `!` (used to model taking the text after the
    first `!` of a sheet-qualified range). -/
def joinWithBang : List String → String
  | [] => ""
  | [x] => x
  | x :: rest => x ++ "!" ++ joinWithBang rest

/-- Model of `String.prototype.split` with a single-character separator. -/
def splitOnCharAux (sep : Char) : List Char → List Char → List String
  | [], acc => [String.mk acc.reverse]
  | c :: rest, acc =>
      if c = sep then String.mk acc.reverse :: splitOnCharAux sep rest []
      else splitOnCharAux sep rest (c :: acc)

/-- Model of `String.prototype.split` with a single-character separator. -/
def splitOnChar (sep : Char) (s : String) : List String :=
  splitOnCharAux sep s.data []

/-- Value of a list of decimal digit characters (model of `parseInt(_, 10)`
    on an all-digit string, exact where JS uses floating point). -/
def digitsToNat (l : List Char) : ℕ := l.foldl (fun acc c => acc * 10 + (c.toNat - 48)) 0

/-- Fuel-indexed worker for `natDigits` (structural recursion so that closed
    terms reduce definitionally; the fuel is always sufficient). -/
def natDigitsAux : ℕ → ℕ → List Char
  | 0, _ => []
  | _ + 1, 0 => []
  | f + 1, n + 1 => natDigitsAux f ((n + 1) / 10) ++ [Char.ofNat (48 + (n + 1) % 10)]

/-- Decimal digit characters of a positive natural, most significant first. -/
def natDigits (n : ℕ) : List Char := natDigitsAux n n

/-- Model of the JS number-to-string conversion for non-negative integers. -/
def natToString (n : ℕ) : String := if n = 0 then "0" else String.mk (natDigits n)

/-- Model of JS `Number(string)` restricted to the decimal grammar
    `ws* [+-]? digits? ('.' digits?)? ws*` that the engine encounters
    (hex, exponent and Infinity forms are outside the modelled fragment);
    `none` represents NaN.  The empty / all-whitespace string converts to 0. -/
def jsStringToNum (s : String) : Option ℚ :=
  let cs := (jsTrim s).data
  if cs.isEmpty then some 0 else
  let (sign, cs1) : ℚ × List Char :=
    match cs with
    | '-' :: rest => (-1, rest)
    | '+' :: rest => (1, rest)
    | _ => (1, cs)
  let intPart := cs1.takeWhile isDigitChar
  let cs2 := cs1.dropWhile isDigitChar
  match cs2 with
  | [] => if intPart.isEmpty then none else some (sign * digitsToNat intPart)
  | '.' :: cs3 =>
      let fracPart := cs3.takeWhile isDigitChar
      let cs4 := cs3.dropWhile isDigitChar
      if cs4.isEmpty then
        if intPart.isEmpty ∧ fracPart.isEmpty then none
        else some (sign * (digitsToNat intPart + (digitsToNat fracPart : ℚ) / (10 : ℚ) ^ fracPart.length))
      else none
  | _ => none

/-! ### Error model (src/src/lib/errors.js) -/

/-- Model of the `CellError` class: a code such as `#CYCLE!` and a message. -/
structure CellError where
  code : String
  message : String
  deriving DecidableEq

/-- Model of `CellError.prototype.toString`: the string form of an error is its code. -/
def CellError.toStringV (e : CellError) : String := e.code

/-- The `ERROR` table of error codes. -/
def ERROR.NAME : String := "#NAME?"
def ERROR.REF : String := "#REF!"
def ERROR.VALUE : String := "#VALUE!"
def ERROR.DIV0 : String := "#DIV/0!"
def ERROR.NA : String := "#N/A"
def ERROR.NUM : String := "#NUM!"
def ERROR.CYCLE : String := "#CYCLE!"

/-- Model of the `err(code, message)` constructor. -/
def mkErr (code message : String) : CellError := ⟨code, message⟩

/-! ### The value union stored in cells and produced by evaluation -/

/-- Model of the dynamic JS values the engine stores and computes:
    numbers (as exact rationals), strings, booleans, `CellError` objects,
    arrays (range results and opaque host tables), `undefined` and `null`. -/
inductive Value where
  | num (q : ℚ)
  | str (s : String)
  | boolean (b : Bool)
  | error (e : CellError)
  | list (vs : List Value)
  | undef
  | null

/-- Model of engine.js `coerceNumber`: numbers pass through, `null`/`undefined`
    give NaN, strings go through `Number(...)`, everything else gives NaN.
    `none` represents a non-finite result (NaN). -/
def coerceNumber : Value → Option ℚ
  | .num q => some q
  | .undef => none
  | .null => none
  | .str s => jsStringToNum s
  | .boolean _ => none
  | .error _ => none
  | .list _ => none

/-- Model of JS truthiness for the modelled values. -/
def jsTruthy : Value → Bool
  | .num q => q ≠ 0
  | .str s => s ≠ ""
  | .boolean b => b
  | .error _ => true
  | .list _ => true
  | .undef => false
  | .null => false

/-- Model of the JS `ToNumber` coercion applied by arithmetic operators such as
    the subtraction in `(row || 1) - 1` (parser.js INDEX): booleans give 0/1,
    `null` gives 0, `undefined` gives NaN, strings parse, objects give NaN for
    the object forms appearing here (a `CellError` stringifies to its code,
    which is never numeric; array-to-number coercion is modelled as NaN). -/
def jsToNumber : Value → Option ℚ
  | .num q => some q
  | .str s => jsStringToNum s
  | .boolean b => some (if b then 1 else 0)
  | .null => some 0
  | .undef => none
  | .error _ => none
  | .list _ => none

/-- Model of JS array indexing `arr[i]` with a possibly fractional, negative or
    NaN index: only a non-negative integral index inside the bounds hits an
    element; anything else reads `undefined` (`none`). -/
def listGet (l : List Value) (idx : Option ℚ) : Option Value :=
  match idx with
  | none => none
  | some q => if 0 ≤ q ∧ q.den = 1 then l[q.num.toNat]? else none

/-- Model of JS property indexing `v[i]` on an arbitrary value: arrays index
    their elements, strings index their characters, everything else reads
    `undefined`. -/
def elemAt (v : Value) (idx : Option ℚ) : Option Value :=
  match v with
  | .list l => listGet l idx
  | .str s =>
      match idx with
      | none => none
      | some q =>
          if 0 ≤ q ∧ q.den = 1 then (s.data[q.num.toNat]?).map (fun c => .str (String.mk [c]))
          else none
  | _ => none

/-! ### Association-list model of JS `Map` (string keys, insertion order kept) -/

/-- Lookup in the association-list model of a JS `Map`. -/
def assocFind {α : Type} : List (String × α) → String → Option α
  | [], _ => none
  | (k, v) :: rest, key => if k = key then some v else assocFind rest key

/-- Model of `Map.prototype.set`: overwrite in place, else append. -/
def assocSet {α : Type} : List (String × α) → String → α → List (String × α)
  | [], key, v => [(key, v)]
  | (k, w) :: rest, key, v =>
      if k = key then (key, v) :: rest else (k, w) :: assocSet rest key v

/-- Model of `Map.prototype.has`. -/
def assocHas {α : Type} (m : List (String × α)) (key : String) : Bool :=
  (assocFind m key).isSome

/-! ### Function registry (BuiltinRegistry in parser.js) -/

/-- Model of `BuiltinRegistry`: a map keyed by the upper-cased name together
    with the original-case names.  Polymorphic in the stored implementation,
    exactly as the untyped JS map is. -/
structure BuiltinRegistry (α : Type) where
  map : List (String × α)
  originalNames : List (String × String)

/-- Model of `BuiltinRegistry.prototype.register`. -/
def BuiltinRegistry.register {α : Type} (r : BuiltinRegistry α) (name : String) (fn : α) :
    BuiltinRegistry α :=
  let key := jsToUpper name
  ⟨assocSet r.map key fn, assocSet r.originalNames key name⟩

/-- Model of `BuiltinRegistry.prototype.get`. -/
def BuiltinRegistry.get {α : Type} (r : BuiltinRegistry α) (name : String) : Option α :=
  assocFind r.map (jsToUpper name)

/-- Model of `BuiltinRegistry.prototype.has`. -/
def BuiltinRegistry.has {α : Type} (r : BuiltinRegistry α) (name : String) : Bool :=
  assocHas r.map (jsToUpper name)

/-- Model of `BuiltinRegistry.prototype.names`. -/
def BuiltinRegistry.names {α : Type} (r : BuiltinRegistry α) : List String :=
  r.originalNames.map Prod.snd

/-! ### Workbook store (SpreadsheetEngine constructor, addSheet, setCell, getCell) -/

/-- Model of the engine's workbook state: `sheetName -> Map(cellAddrUpper -> value)`. -/
structure Engine where
  sheets : List (String × List (String × Value))

/-- The freshly constructed engine. -/
def emptyEngine : Engine := ⟨[]⟩

/-- Model of `SpreadsheetEngine.prototype.addSheet` (idempotent). -/
def addSheet (e : Engine) (sheetName : String) : Engine :=
  if assocHas e.sheets sheetName then e else ⟨assocSet e.sheets sheetName []⟩

/-- Model of `SpreadsheetEngine.prototype.setCell`: create the sheet if
    missing, then store under `address.toUpperCase()`. -/
def setCell (e : Engine) (sheetName address : String) (v : Value) : Engine :=
  let e1 := if assocHas e.sheets sheetName then e else addSheet e sheetName
  let sheet := (assocFind e1.sheets sheetName).getD []
  ⟨assocSet e1.sheets sheetName (assocSet sheet (jsToUpper address) v)⟩

/-- Model of `SpreadsheetEngine.prototype.getCell`: `none` is JS `undefined`. -/
def getCell (e : Engine) (sheetName address : String) : Option Value :=
  match assocFind e.sheets sheetName with
  | none => none
  | some sheet => assocFind sheet (jsToUpper address)

/-! ### Address model (engine.js utilities) -/

/-- Model of the match object of `/^(\$?)([A-Za-z]+)(\$?)(\d+)$/`. -/
structure A1Parts where
  colAbs : Bool
  col : String
  rowAbs : Bool
  row : String

/-- Model of engine.js `parseAbsoluteA1`. -/
def parseAbsoluteA1 (s : String) : Option A1Parts :=
  let cs := s.data
  let (colAbs, cs1) : Bool × List Char :=
    match cs with
    | '$' :: rest => (true, rest)
    | _ => (false, cs)
  let colChars := cs1.takeWhile isAlphaChar
  let cs2 := cs1.dropWhile isAlphaChar
  if colChars.isEmpty then none else
  let (rowAbs, cs3) : Bool × List Char :=
    match cs2 with
    | '$' :: rest => (true, rest)
    | _ => (false, cs2)
  let rowChars := cs3.takeWhile isDigitChar
  let cs4 := cs3.dropWhile isDigitChar
  if rowChars.isEmpty ∨ ¬ cs4.isEmpty then none
  else some ⟨colAbs, String.mk colChars, rowAbs, String.mk rowChars⟩

/-- The canonical `UPPERCOLUMN + ROWNUMBER` text built by `normalizeAddress`
    from a parsed address: `abs.col.toUpperCase() + parseInt(abs.row, 10)`. -/
def canonicalOf (p : A1Parts) : String :=
  jsToUpper p.col ++ natToString (digitsToNat p.row.data)

/-- Model of the regex `/^([^!]+)!([^!]+)$/` used by `normalizeAddress`:
    exactly one `!` with non-empty text on both sides. -/
def splitBang (s : String) : Option (String × String) :=
  match splitOnChar '!' s with
  | [a, b] => if strIsEmpty a ∨ strIsEmpty b then none else some (a, b)
  | _ => none

/-- Model of engine.js `normalizeAddress`: resolves an optionally
    sheet-qualified, optionally absolute address to `(sheet, canonical)`;
    throws (models as `Except.error`) on invalid A1 text. -/
def normalizeAddress (address defaultSheet : String) : Except String (String × String) :=
  match splitBang address with
  | some (sheet, a1) =>
      match parseAbsoluteA1 a1 with
      | none => .error ("Invalid A1: " ++ a1)
      | some p => .ok (sheet, canonicalOf p)
  | none =>
      match parseAbsoluteA1 address with
      | none => .error ("Invalid A1: " ++ address)
      | some p => .ok (defaultSheet, canonicalOf p)

/-- Model of engine.js `qualifyIfNeeded`. -/
def qualifyIfNeeded (address defaultSheet : String) : String :=
  match splitBang address with
  | some _ => address
  | none => defaultSheet ++ "!" ++ address

/-- Model of the column-letter fold in `a1ToRowCol`:
    `col = col * 26 + (charCode - 64)` over the upper-cased letters. -/
def lettersToIndex (l : List Char) : ℕ := l.foldl (fun acc c => acc * 26 + (c.toNat - 64)) 0

/-- Model of engine.js `a1ToRowCol`; returns `(row, col)`. -/
def a1ToRowCol (a1 : String) : Except String (ℕ × ℕ) :=
  match parseAbsoluteA1 a1 with
  | none => .error ("Invalid A1 ref: " ++ a1)
  | some p => .ok (digitsToNat p.row.data, lettersToIndex (jsToUpper p.col).data)

/-- Fuel-indexed worker for `indexToLetters` (structural recursion so that
    closed terms reduce definitionally; the fuel is always sufficient). -/
def indexToLettersAux : ℕ → ℕ → List Char
  | 0, _ => []
  | _ + 1, 0 => []
  | f + 1, c + 1 => indexToLettersAux f (c / 26) ++ [Char.ofNat (65 + c % 26)]

/-- Model of the letter loop of engine.js `rowColToA1`:
    `while (c > 0) { rem = (c-1) % 26; prepend chr(65+rem); c = (c-1)/26 }`. -/
def indexToLetters (c : ℕ) : List Char := indexToLettersAux c c

/-- Model of engine.js `rowColToA1`. -/
def rowColToA1 (row col : ℕ) : String :=
  String.mk (indexToLetters col) ++ natToString row

/-- Model of engine.js `expandRange`: the row-major rectangle between the two
    endpoints, endpoints reordered so that min ≤ max on each axis. -/
def expandRange (startA1 endA1 : String) : Except String (List String) :=
  match a1ToRowCol startA1 with
  | .error m => .error m
  | .ok (r1, c1) =>
      match a1ToRowCol endA1 with
      | .error m => .error m
      | .ok (r2, c2) =>
          let rmin := min r1 r2
          let rmax := max r1 r2
          let cmin := min c1 c2
          let cmax := max c1 c2
          .ok ((List.range (rmax - rmin + 1)).flatMap (fun i =>
            (List.range (cmax - cmin + 1)).map (fun j => rowColToA1 (rmin + i) (cmin + j))))

/-! ### Expression tree (parser.js output) -/

/-- Model of the parser's AST nodes. -/
inductive Ast where
  | lit (v : Value)
  | cell (ref : String)
  | range (rstart rend : String)
  | call (name : String) (args : List Ast)
  | binop (op : Char) (left right : Ast)

/-! ### Parser (parser.js), fuel-indexed recursive descent -/

/-- Model of the parser context `{ s, i }`. -/
structure Ctx where
  s : List Char
  i : ℕ

/-- Model of parser.js `peek`: reading past the end gives `undefined` (`none`). -/
def peekC (ctx : Ctx) : Option Char := ctx.s[ctx.i]?

/-- Advance the cursor one character (the cursor move of parser.js `next`). -/
def advC (ctx : Ctx) : Ctx := ⟨ctx.s, ctx.i + 1⟩

/-- Model of parser.js `skipWs`. -/
def skipWs (ctx : Ctx) : Ctx :=
  ⟨ctx.s, ctx.i + ((ctx.s.drop ctx.i).takeWhile isWsChar).length⟩

/-- Model of parser.js `readWhile`. -/
def readWhile (p : Char → Bool) (ctx : Ctx) : String × Ctx :=
  let t := (ctx.s.drop ctx.i).takeWhile p
  (String.mk t, ⟨ctx.s, ctx.i + t.length⟩)

/-- Digit test on the `Option Char` produced by `peekC` (`undefined` fails). -/
def isDigitO (o : Option Char) : Bool := o.elim false isDigitChar

/-- Letter test on the `Option Char` produced by `peekC`. -/
def isAlphaO (o : Option Char) : Bool := o.elim false isAlphaChar

/-- Model of parser.js `expect`. -/
def expectC (ctx : Ctx) (ch : Char) : Except String Ctx :=
  match peekC ctx with
  | some g => if g = ch then .ok (advC ctx)
              else .error ("Expected " ++ String.mk [ch] ++ " got " ++ String.mk [g])
  | none => .error ("Expected " ++ String.mk [ch] ++ " got undefined")

/-- Model of the character loop of parser.js `parseString`; returns the
    accumulated characters and the unconsumed remainder.  At end-of-input after
    a backslash the JS appends the string form of `undefined`. -/
def parseStringBody : List Char → List Char → List Char × List Char
  | [], out => (out, [])
  | '"' :: rest, out => (out, rest)
  | ['\\'], out => (out ++ "undefined".data, [])
  | '\\' :: e :: rest, out =>
      let oc : Char :=
        if e = '"' then '"'
        else if e = '\\' then '\\'
        else if e = 'n' then '\n'
        else if e = 't' then '\t'
        else e
      parseStringBody rest (out ++ [oc])
  | c :: rest, out => parseStringBody rest (out ++ [c])

/-- Model of parser.js `parseString`. -/
def parseString (ctx : Ctx) : Except String (Ast × Ctx) :=
  match expectC ctx '"' with
  | .error m => .error m
  | .ok ctx1 =>
      let (out, rest) := parseStringBody (ctx1.s.drop ctx1.i) []
      .ok (.lit (.str (String.mk out)), ⟨ctx1.s, ctx1.s.length - rest.length⟩)

/-- Model of parser.js `tryParseNumber`; `none` is the JS `null` (reset). -/
def tryParseNumber (ctx : Ctx) : Option (Ast × Ctx) :=
  let start := ctx.i
  let ctx1 :=
    match peekC ctx with
    | some '+' => advC ctx
    | some '-' => advC ctx
    | _ => ctx
  let (d1, ctx2) := readWhile isDigitChar ctx1
  let (ctx3, seen2) :=
    if peekC ctx2 = some '.' then
      let (d2, c) := readWhile isDigitChar (advC ctx2)
      (c, !strIsEmpty d2)
    else (ctx2, false)
  if !(!strIsEmpty d1 || seen2) then none
  else
    let numStr := String.mk ((ctx.s.drop start).take (ctx3.i - start))
    match jsStringToNum numStr with
    | none => none
    | some q => some (.lit (.num q), ctx3)

/-- Model of parser.js `parseCellRef`. -/
def parseCellRef (ctx : Ctx) : Except String (String × Ctx) :=
  let (col, c1) := readWhile (fun c => isAlphaChar c || c = '$') ctx
  let (rowAbs, c2) := readWhile (fun c => c = '$') c1
  let (row, c3) := readWhile isDigitChar c2
  if strIsEmpty col ∨ strIsEmpty row then .error ("Invalid cell reference at " ++ natToString c3.i)
  else .ok (jsToUpper (col ++ rowAbs ++ row), c3)

/-- Model of parser.js `tryParseSheetQualified`; the outer `Except` carries the
    exceptions `parseCellRef` may throw, `none` is the JS `null` (reset). -/
def tryParseSheetQualified (ctx : Ctx) : Except String (Option (Ast × Ctx)) :=
  let (sheet, c1) := readWhile (fun c => isAlphaChar c || isDigitChar c || c = '_') ctx
  if strIsEmpty sheet then .ok none
  else if peekC c1 ≠ some '!' then .ok none
  else
    match parseCellRef (advC c1) with
    | .error m => .error m
    | .ok (cellStart, c2) =>
        let c3 := skipWs c2
        if peekC c3 = some ':' then
          match parseCellRef (skipWs (advC c3)) with
          | .error m => .error m
          | .ok (cellEnd, c4) =>
              .ok (some (.range (sheet ++ "!" ++ cellStart) (sheet ++ "!" ++ cellEnd), c4))
        else .ok (some (.cell (sheet ++ "!" ++ cellStart), c3))

mutual

/-- Model of parser.js `parseExpr` (fuel-indexed). -/
def parseExpr : ℕ → Ctx → Except String (Ast × Ctx)
  | 0, _ => .error "parser fuel exhausted"
  | f + 1, ctx => parseAddSub f (skipWs ctx)

/-- Model of parser.js `parseAddSub`. -/
def parseAddSub : ℕ → Ctx → Except String (Ast × Ctx)
  | 0, _ => .error "parser fuel exhausted"
  | f + 1, ctx =>
      match parseMulDiv f ctx with
      | .error m => .error m
      | .ok (node, c1) => parseAddSubLoop f node c1

/-- The `while` loop of parser.js `parseAddSub`. -/
def parseAddSubLoop : ℕ → Ast → Ctx → Except String (Ast × Ctx)
  | 0, _, _ => .error "parser fuel exhausted"
  | f + 1, node, ctx =>
      let c1 := skipWs ctx
      match peekC c1 with
      | some '+' =>
          match parseMulDiv f (advC c1) with
          | .error m => .error m
          | .ok (right, c2) => parseAddSubLoop f (.binop '+' node right) c2
      | some '-' =>
          match parseMulDiv f (advC c1) with
          | .error m => .error m
          | .ok (right, c2) => parseAddSubLoop f (.binop '-' node right) c2
      | _ => .ok (node, c1)

/-- Model of parser.js `parseMulDiv`. -/
def parseMulDiv : ℕ → Ctx → Except String (Ast × Ctx)
  | 0, _ => .error "parser fuel exhausted"
  | f + 1, ctx =>
      match parseTerm f ctx with
      | .error m => .error m
      | .ok (node, c1) => parseMulDivLoop f node c1

/-- The `while` loop of parser.js `parseMulDiv`. -/
def parseMulDivLoop : ℕ → Ast → Ctx → Except String (Ast × Ctx)
  | 0, _, _ => .error "parser fuel exhausted"
  | f + 1, node, ctx =>
      let c1 := skipWs ctx
      match peekC c1 with
      | some '*' =>
          match parseTerm f (advC c1) with
          | .error m => .error m
          | .ok (right, c2) => parseMulDivLoop f (.binop '*' node right) c2
      | some '/' =>
          match parseTerm f (advC c1) with
          | .error m => .error m
          | .ok (right, c2) => parseMulDivLoop f (.binop '/' node right) c2
      | _ => .ok (node, c1)

/-- Model of parser.js `parseTerm`. -/
def parseTerm : ℕ → Ctx → Except String (Ast × Ctx)
  | 0, _ => .error "parser fuel exhausted"
  | f + 1, ctx0 =>
      let ctx := skipWs ctx0
      let start := ctx.i
      if peekC ctx = some '(' then
        match parseExpr f (advC ctx) with
        | .error m => .error m
        | .ok (inner, c1) =>
            match expectC (skipWs c1) ')' with
            | .error m => .error m
            | .ok c2 => .ok (inner, c2)
      else if peekC ctx = some '"' then parseString ctx
      else
        let numTry : Option (Ast × Ctx) :=
          if peekC ctx = some '+' ∨ peekC ctx = some '-' ∨ isDigitO (peekC ctx) then
            tryParseNumber ctx
          else none
        match numTry with
        | some r => .ok r
        | none =>
            match tryParseSheetQualified ctx with
            | .error m => .error m
            | .ok (some r) => .ok r
            | .ok none =>
                if isAlphaO (peekC ctx) ∨ peekC ctx = some '$' then
                  let (ident, c1) := readWhile (fun c => isAlphaChar c || c = '$') ctx
                  if isDigitO (peekC c1) then
                    let (rowAbs, c2) := readWhile (fun c => c = '$') c1
                    let (row, c3) := readWhile isDigitChar c2
                    let cellRef := jsToUpper (ident ++ rowAbs ++ row)
                    let c4 := skipWs c3
                    if peekC c4 = some ':' then
                      match parseCellRef (skipWs (advC c4)) with
                      | .error m => .error m
                      | .ok (endRef, c5) => .ok (.range cellRef endRef, c5)
                    else .ok (.cell cellRef, c4)
                  else
                    let c2 := skipWs c1
                    if peekC c2 = some '(' then
                      let c3 := skipWs (advC c2)
                      if peekC c3 = some ')' then .ok (.call (jsToUpper ident) [], advC c3)
                      else parseArgsLoop f (jsToUpper ident) [] c3
                    else
                      let upperIdent := jsToUpper ident
                      if upperIdent = "TRUE" then .ok (.lit (.boolean true), c2)
                      else if upperIdent = "FALSE" then .ok (.lit (.boolean false), c2)
                      else .error ("Unable to parse term at " ++ natToString start)
                else .error ("Unable to parse term at " ++ natToString start)

/-- The argument-list `while` loop inside parser.js `parseTerm`. -/
def parseArgsLoop : ℕ → String → List Ast → Ctx → Except String (Ast × Ctx)
  | 0, _, _, _ => .error "parser fuel exhausted"
  | f + 1, name, acc, ctx =>
      match parseExpr f ctx with
      | .error m => .error m
      | .ok (arg, c1) =>
          let acc1 := acc ++ [arg]
          let c2 := skipWs c1
          match peekC c2 with
          | some ',' => parseArgsLoop f name acc1 (advC c2)
          | some ')' => .ok (.call name acc1, advC c2)
          | _ => .error ("Expected , or ) in function call at " ++ natToString c2.i)

end

/-- Model of parser.js `parseFormula`.  The fuel bound is ample for every
    input: each parser step either consumes a character or descends a level,
    so the concrete runs in this development never exhaust it. -/
def parseFormula (input : String) : Except String Ast :=
  let ctx0 : Ctx := ⟨(jsTrim input).data, 0⟩
  match parseExpr (ctx0.s.length * 8 + 64) ctx0 with
  | .error m => .error m
  | .ok (node, c1) =>
      let c2 := skipWs c1
      if c2.i ≠ c2.s.length then .error ("Unexpected input at position " ++ natToString c2.i)
      else .ok node

/-! ### Evaluator (SpreadsheetEngine.evaluateCell / evaluateAst) -/

/-- Outcome of one evaluation: a value (in-cell errors are values), an escaped
    exception-equivalent, or the artificial out-of-fuel marker. -/
inductive EvalRes where
  | ok (v : Value)
  | exn (m : String)
  | fuelOut

/-- Outcome of evaluating a list of arguments or cells. -/
inductive ListRes where
  | ok (vs : List Value)
  | exn (m : String)
  | fuelOut

/-- A registered function implementation: evaluated arguments to a value, or a
    thrown exception-equivalent.  (The JS passes the engine as a second context
    argument; none of the modelled built-ins reads it, so it is omitted.) -/
def FuncImpl : Type := List Value → Except String Value

mutual

/-- Model of `SpreadsheetEngine.prototype.evaluateCell` with the mutable visit
    `Set` passed as explicit state.  The `try/finally` of the JS is mirrored:
    the visit key is removed from the returned set on every exit path, and a
    caught exception-equivalent becomes a VALUE error value. -/
def evaluateCell : ℕ → Engine → BuiltinRegistry FuncImpl → String → String → List String →
    EvalRes × List String
  | 0, _, _, _, _, vis => (.fuelOut, vis)
  | f + 1, eng, reg, sheetName, address, vis =>
      match normalizeAddress address sheetName with
      | .error m => (.exn m, vis)
      | .ok (resolvedSheet, normalized) =>
          let key := resolvedSheet ++ "!" ++ normalized
          if key ∈ vis then
            (.ok (.error (mkErr ERROR.CYCLE ("Circular reference at " ++ key))), vis)
          else
            let vis1 := key :: vis
            let raw := getCell eng resolvedSheet normalized
            let res : EvalRes × List String :=
              match raw with
              | some (.str s) =>
                  if strStartsWith s "=" then
                    match parseFormula (strDrop1 s) with
                    | .error m => (.ok (.error (mkErr ERROR.VALUE m)), vis1)
                    | .ok ast =>
                        match evaluateAst f eng reg resolvedSheet ast vis1 with
                        | (.exn m, v2) => (.ok (.error (mkErr ERROR.VALUE m)), v2)
                        | r => r
                  else (.ok (.str s), vis1)
              | some v => (.ok v, vis1)
              | none => (.ok .undef, vis1)
            (res.1, res.2.erase key)

/-- Model of `SpreadsheetEngine.prototype.evaluateAst`. -/
def evaluateAst : ℕ → Engine → BuiltinRegistry FuncImpl → String → Ast → List String →
    EvalRes × List String
  | 0, _, _, _, _, vis => (.fuelOut, vis)
  | f + 1, eng, reg, sheetName, node, vis =>
      match node with
      | .lit v => (.ok v, vis)
      | .cell ref => evaluateCell f eng reg sheetName ref vis
      | .range rstart rend =>
          let qstart := qualifyIfNeeded rstart sheetName
          let qend := qualifyIfNeeded rend sheetName
          match normalizeAddress qstart sheetName with
          | .error m => (.exn m, vis)
          | .ok (sheetStart, a1) =>
              match normalizeAddress qend sheetName with
              | .error m => (.exn m, vis)
              | .ok (sheetEnd, a2) =>
                  if sheetStart ≠ sheetEnd then
                    (.ok (.error (mkErr ERROR.REF "Cross-sheet ranges not supported")), vis)
                  else
                    match expandRange a1 a2 with
                    | .error m => (.exn m, vis)
                    | .ok cells =>
                        match evalCellList f eng reg sheetStart cells vis with
                        | (.ok vs, v2) => (.ok (.list vs), v2)
                        | (.exn m, v2) => (.exn m, v2)
                        | (.fuelOut, v2) => (.fuelOut, v2)
      | .call fnName args =>
          match evalArgs f eng reg sheetName args vis with
          | (.exn m, v2) => (.exn m, v2)
          | (.fuelOut, v2) => (.fuelOut, v2)
          | (.ok evaluatedArgs, v2) =>
              match BuiltinRegistry.get reg fnName with
              | none => (.ok (.error (mkErr ERROR.NAME ("Unknown function: " ++ fnName))), v2)
              | some fn =>
                  match fn evaluatedArgs with
                  | .ok r => (.ok r, v2)
                  | .error m =>
                      (.ok (.error (mkErr ERROR.VALUE
                        ("Function " ++ fnName ++ " error: " ++ m))), v2)
      | .binop op left right =>
          match evaluateAst f eng reg sheetName left vis with
          | (.exn m, v1) => (.exn m, v1)
          | (.fuelOut, v1) => (.fuelOut, v1)
          | (.ok leftVal, v1) =>
              match evaluateAst f eng reg sheetName right v1 with
              | (.exn m, v2) => (.exn m, v2)
              | (.fuelOut, v2) => (.fuelOut, v2)
              | (.ok rightVal, v2) =>
                  match coerceNumber leftVal, coerceNumber rightVal with
                  | some l, some r =>
                      if op = '+' then (.ok (.num (l + r)), v2)
                      else if op = '-' then (.ok (.num (l - r)), v2)
                      else if op = '*' then (.ok (.num (l * r)), v2)
                      else if op = '/' then
                        if r = 0 then (.ok (.error (mkErr ERROR.DIV0 "Division by zero")), v2)
                        else (.ok (.num (l / r)), v2)
                      else
                        (.ok (.error (mkErr ERROR.VALUE
                          ("Unknown operator " ++ String.mk [op]))), v2)
                  | _, _ =>
                      (.ok (.error (mkErr ERROR.VALUE "Arithmetic with non-numeric values")), v2)

/-- The state-threaded `cells.map(addr => evaluateCell ...)` of the Range case. -/
def evalCellList : ℕ → Engine → BuiltinRegistry FuncImpl → String → List String →
    List String → ListRes × List String
  | 0, _, _, _, _, vis => (.fuelOut, vis)
  | _ + 1, _, _, _, [], vis => (.ok [], vis)
  | f + 1, eng, reg, sheetName, a :: rest, vis =>
      match evaluateCell f eng reg sheetName a vis with
      | (.ok v, v1) =>
          match evalCellList f eng reg sheetName rest v1 with
          | (.ok vs, v2) => (.ok (v :: vs), v2)
          | (.exn m, v2) => (.exn m, v2)
          | (.fuelOut, v2) => (.fuelOut, v2)
      | (.exn m, v1) => (.exn m, v1)
      | (.fuelOut, v1) => (.fuelOut, v1)

/-- The state-threaded `node.args.map(arg => evaluateAst ...)` of the Call case. -/
def evalArgs : ℕ → Engine → BuiltinRegistry FuncImpl → String → List Ast →
    List String → ListRes × List String
  | 0, _, _, _, _, vis => (.fuelOut, vis)
  | _ + 1, _, _, _, [], vis => (.ok [], vis)
  | f + 1, eng, reg, sheetName, a :: rest, vis =>
      match evaluateAst f eng reg sheetName a vis with
      | (.ok v, v1) =>
          match evalArgs f eng reg sheetName rest v1 with
          | (.ok vs, v2) => (.ok (v :: vs), v2)
          | (.exn m, v2) => (.exn m, v2)
          | (.fuelOut, v2) => (.fuelOut, v2)
      | (.exn m, v1) => (.exn m, v1)
      | (.fuelOut, v1) => (.fuelOut, v1)

end

/-! ### Range API (engine.js parseRangeRef, getRange, setRange) -/

/-- The bounds record produced by `parseRangeRef`. -/
structure RangeBounds where
  sheet : String
  rstart : String
  rend : String
  rowsMin : ℕ
  rowsMax : ℕ
  colsMin : ℕ
  colsMax : ℕ

/-- Model of the regex `/^([^!]+)!([^:]+):([^:]+)$/` of `parseRangeRef`:
    a non-empty sheet part before the first `!`, then exactly one `:` splitting
    two non-empty colon-free parts. -/
def sheetRangeMatch (s : String) : Option (String × String × String) :=
  match splitOnChar '!' s with
  | [] => none
  | [_] => none
  | sheet :: rest =>
      if strIsEmpty sheet then none
      else
        match splitOnChar ':' (joinWithBang rest) with
        | [a, b] => if strIsEmpty a ∨ strIsEmpty b then none else some (sheet, a, b)
        | _ => none

/-- Model of engine.js `parseRangeRef`. -/
def parseRangeRef (rangeStr defaultSheet : String) : Except String RangeBounds :=
  let input := jsTrim rangeStr
  if strIsEmpty input then .error "Missing range" else
  let parts : Except String (String × String × String) :=
    match sheetRangeMatch input with
    | some (sh, st, en) => .ok (sh, st, en)
    | none =>
        match splitOnChar ':' input with
        | [p1, p2] => .ok (defaultSheet, jsTrim p1, jsTrim p2)
        | _ => .error "Invalid range (expected A1:B2)"
  match parts with
  | .error m => .error m
  | .ok (sheet, startStr, endStr) =>
      match normalizeAddress startStr sheet with
      | .error m => .error m
      | .ok (_, rstart) =>
          match normalizeAddress endStr sheet with
          | .error m => .error m
          | .ok (_, rend) =>
              match a1ToRowCol rstart with
              | .error m => .error m
              | .ok (r1, c1) =>
                  match a1ToRowCol rend with
                  | .error m => .error m
                  | .ok (r2, c2) =>
                      .ok ⟨sheet, rstart, rend, min r1 r2, max r1 r2, min c1 c2, max c1 c2⟩

/-- One cell descriptor in a range result; `none` marks a field the mode does
    not populate (observationally the same as JS `undefined`). -/
structure CellDesc where
  address : String
  raw : Option Value
  computed : Option EvalRes

/-- The record returned by `getRange` / `setRange`. -/
structure RangeResult where
  sheet : String
  range : String
  rows : List (List CellDesc)

/-- Model of `SpreadsheetEngine.prototype.getRange`.  `mode` is the JS string
    argument; evaluation of each cell starts from a fresh empty visit set. -/
def getRange (fuel : ℕ) (eng : Engine) (reg : BuiltinRegistry FuncImpl)
    (sheetName rangeStr mode : String) : Except String RangeResult :=
  match parseRangeRef rangeStr sheetName with
  | .error m => .error m
  | .ok b =>
      let rows := (List.range (b.rowsMax - b.rowsMin + 1)).map (fun i =>
        (List.range (b.colsMax - b.colsMin + 1)).map (fun j =>
          let address := rowColToA1 (b.rowsMin + i) (b.colsMin + j)
          { address := address
            raw := if mode = "raw" ∨ mode = "both" then getCell eng b.sheet address else none
            computed :=
              if mode = "computed" ∨ mode = "both" then
                some (evaluateCell fuel eng reg b.sheet address []).1
              else none : CellDesc }))
      .ok { sheet := b.sheet
            range := rowColToA1 b.rowsMin b.colsMin ++ ":" ++ rowColToA1 b.rowsMax b.colsMax
            rows := rows }

/-- The row-major list of `(address, value)` writes performed by `setRange`. -/
def setRangeWrites (b : RangeBounds) (values : List (List Value)) : List (String × Value) :=
  (List.range (b.rowsMax - b.rowsMin + 1)).flatMap (fun i =>
    (List.range (b.colsMax - b.colsMin + 1)).map (fun j =>
      (rowColToA1 (b.rowsMin + i) (b.colsMin + j), (values.getD i []).getD j .undef)))

/-- Model of `SpreadsheetEngine.prototype.setRange`: validates the matrix,
    writes each cell through `setCell` in row-major order, and returns the new
    engine together with the echoed range in `both` mode. -/
def setRange (fuel : ℕ) (eng : Engine) (reg : BuiltinRegistry FuncImpl)
    (sheetName rangeStr : String) (values : List (List Value)) :
    Except String (Engine × RangeResult) :=
  if values.isEmpty then .error "values must be a non-empty 2D array" else
  match parseRangeRef rangeStr sheetName with
  | .error m => .error m
  | .ok b =>
      let rowCount := b.rowsMax - b.rowsMin + 1
      let colCount := b.colsMax - b.colsMin + 1
      if values.length ≠ rowCount ∨ values.any (fun row => row.length ≠ colCount) then
        .error ("values shape " ++ natToString values.length ++ "x"
          ++ natToString (values.headD []).length ++ " does not match range size "
          ++ natToString rowCount ++ "x" ++ natToString colCount)
      else
        let eng1 := (setRangeWrites b values).foldl
          (fun acc p => setCell acc b.sheet p.1 p.2) eng
        let resultRows := (List.range rowCount).map (fun i =>
          (List.range colCount).map (fun j =>
            let address := rowColToA1 (b.rowsMin + i) (b.colsMin + j)
            { address := address
              raw := getCell eng1 b.sheet address
              computed := some (evaluateCell fuel eng1 reg b.sheet address []).1 : CellDesc }))
        .ok (eng1,
          { sheet := b.sheet
            range := rowColToA1 b.rowsMin b.colsMin ++ ":" ++ rowColToA1 b.rowsMax b.colsMax
            rows := resultRows })

/-! ### The INDEX built-in (parser.js builtins) -/

/-- JS `Array.isArray`. -/
def isArrayV : Value → Bool
  | .list _ => true
  | _ => false

/-- The index computation `(x || 1) - 1` of the INDEX built-in: JS `||` takes
    the fallback on a falsy operand, and `-` applies the `ToNumber` coercion;
    `none` is NaN. -/
def indexArg (x : Value) : Option ℚ :=
  (jsToNumber (if jsTruthy x then x else .num 1)).map (fun q => q - 1)

/-- Comparison `i < 0` on a possibly-NaN JS number (NaN compares false). -/
def idxNeg (i : Option ℚ) : Bool :=
  match i with
  | none => false
  | some q => q < 0

/-- Comparison `i >= len` on a possibly-NaN JS number (NaN compares false). -/
def idxGe (i : Option ℚ) (len : ℕ) : Bool :=
  match i with
  | none => false
  | some q => (len : ℚ) ≤ q

/-- Model of the INDEX built-in registered in parser.js:
    `ensureArray` pads missing arguments with `undefined`; a 2D array (first
    element is an array) is indexed `[row-1][col-1]` with REF on misses, a 1D
    array is indexed `[row-1]`, and a non-array first argument gives VALUE. -/
def builtinINDEX (args : List Value) : Value :=
  let array := args.getD 0 .undef
  let row := args.getD 1 .undef
  let column := args.getD 2 .undef
  match array with
  | .list l =>
      if !l.isEmpty && isArrayV (l.headD .undef) then
        let r := indexArg row
        let c := indexArg column
        if idxNeg r || idxNeg c then .error (mkErr ERROR.REF "INDEX out of bounds")
        else
          match listGet l r with
          | none => .error (mkErr ERROR.REF "INDEX out of bounds")
          | some rowArr =>
              if !jsTruthy rowArr then .error (mkErr ERROR.REF "INDEX out of bounds")
              else
                match elemAt rowArr c with
                | none => .error (mkErr ERROR.REF "INDEX out of bounds")
                | some .undef => .error (mkErr ERROR.REF "INDEX out of bounds")
                | some x => x
      else
        let r := indexArg row
        if idxNeg r || idxGe r l.length then .error (mkErr ERROR.REF "INDEX out of bounds")
        else (listGet l r).getD .undef
  | _ =>
      -- non-array first argument: the 1D branch's Array.isArray guard fails
      let r := indexArg row
      let _ := r
      .error (mkErr ERROR.VALUE "INDEX expects array")

/-- The empty registry, as constructed by `new BuiltinRegistry()`. -/
def emptyReg : BuiltinRegistry FuncImpl := ⟨[], []⟩

/-- A workbook with the pure reference cycle `A1 = "=A2"`, `A2 = "=A1"`. -/
def cycEngine : Engine :=
  setCell (setCell emptyEngine "S" "A1" (.str "=A2")) "S" "A2" (.str "=A1")

/-- A workbook with the arithmetic reference cycle `A1 = "=A2+1"`, `A2 = "=A1+1"`. -/
def cyc2Engine : Engine :=
  setCell (setCell emptyEngine "S" "A1" (.str "=A2+1")) "S" "A2" (.str "=A1+1")

/-! ## Supporting lemmas -/

theorem lettersToIndex_append_singleton (xs : List Char) (c : Char) :
    lettersToIndex (xs ++ [c]) = lettersToIndex xs * 26 + (c.toNat - 64) := by
  simp [lettersToIndex]

theorem indexToLettersAux_irrel :
    ∀ c f₁ f₂, c ≤ f₁ → c ≤ f₂ → indexToLettersAux f₁ c = indexToLettersAux f₂ c := by
  intro c
  induction c using Nat.strong_induction_on with
  | _ c ih =>
    intro f₁ f₂ h₁ h₂
    match c, f₁, f₂ with
    | 0, 0, 0 => rfl
    | 0, 0, _ + 1 => rfl
    | 0, _ + 1, 0 => rfl
    | 0, _ + 1, _ + 1 => rfl
    | k + 1, a + 1, b + 1 =>
      show indexToLettersAux a (k / 26) ++ _ = indexToLettersAux b (k / 26) ++ _
      rw [ih (k / 26) (Nat.lt_succ_of_le (Nat.div_le_self k 26)) a b
        (le_trans (Nat.div_le_self k 26) (Nat.le_of_succ_le_succ h₁))
        (le_trans (Nat.div_le_self k 26) (Nat.le_of_succ_le_succ h₂))]

theorem indexToLetters_zero : indexToLetters 0 = [] := rfl

theorem indexToLetters_succ (c : ℕ) :
    indexToLetters (c + 1) = indexToLetters (c / 26) ++ [Char.ofNat (65 + c % 26)] := by
  show indexToLettersAux c (c / 26) ++ _ = indexToLettersAux (c / 26) (c / 26) ++ _
  rw [indexToLettersAux_irrel (c / 26) c (c / 26) (Nat.div_le_self c 26) (le_refl _)]

theorem natDigitsAux_irrel :
    ∀ n f₁ f₂, n ≤ f₁ → n ≤ f₂ → natDigitsAux f₁ n = natDigitsAux f₂ n := by
  intro n
  induction n using Nat.strong_induction_on with
  | _ n ih =>
    intro f₁ f₂ h₁ h₂
    match n, f₁, f₂ with
    | 0, 0, 0 => rfl
    | 0, 0, _ + 1 => rfl
    | 0, _ + 1, 0 => rfl
    | 0, _ + 1, _ + 1 => rfl
    | k + 1, a + 1, b + 1 =>
      show natDigitsAux a ((k + 1) / 10) ++ _ = natDigitsAux b ((k + 1) / 10) ++ _
      have hlt : (k + 1) / 10 < k + 1 := Nat.div_lt_self (Nat.succ_pos k) (by norm_num)
      rw [ih ((k + 1) / 10) hlt a b
        (le_trans (Nat.le_of_lt_succ hlt) (Nat.le_of_succ_le_succ h₁))
        (le_trans (Nat.le_of_lt_succ hlt) (Nat.le_of_succ_le_succ h₂))]

theorem natDigits_succ (n : ℕ) :
    natDigits (n + 1) = natDigits ((n + 1) / 10) ++ [Char.ofNat (48 + (n + 1) % 10)] := by
  show natDigitsAux n ((n + 1) / 10) ++ _ = natDigitsAux ((n + 1) / 10) ((n + 1) / 10) ++ _
  have hle : (n + 1) / 10 ≤ n :=
    Nat.le_of_lt_succ (Nat.div_lt_self (Nat.succ_pos n) (by norm_num))
  rw [natDigitsAux_irrel ((n + 1) / 10) n ((n + 1) / 10) hle (le_refl _)]

theorem toNat_ofNat_letter (r : ℕ) (h : r < 26) :
    (Char.ofNat (65 + r)).toNat = 65 + r := by
  interval_cases r <;> decide

theorem letter_bounds (r : ℕ) (h : r < 26) :
    65 ≤ (Char.ofNat (65 + r)).toNat ∧ (Char.ofNat (65 + r)).toNat ≤ 90 := by
  interval_cases r <;> decide

theorem lettersToIndex_indexToLetters (n : ℕ) :
    lettersToIndex (indexToLetters n) = n := by
  induction n using Nat.strong_induction_on with
  | _ n ih =>
    match n with
    | 0 => simp [indexToLetters_zero, lettersToIndex]
    | c + 1 =>
      rw [indexToLetters_succ, lettersToIndex_append_singleton,
        ih (c / 26) (Nat.lt_succ_of_le (Nat.div_le_self c 26)),
        toNat_ofNat_letter (c % 26) (Nat.mod_lt c (by norm_num))]
      have hdm := Nat.div_add_mod c 26
      omega

theorem indexToLetters_mul_add (a d : ℕ) (h1 : 1 ≤ d) (h2 : d ≤ 26) :
    indexToLetters (a * 26 + d) = indexToLetters a ++ [Char.ofNat (64 + d)] := by
  have hpos : a * 26 + d = (a * 26 + d - 1) + 1 := by omega
  rw [hpos, indexToLetters_succ]
  rw [show a * 26 + d - 1 = (d - 1) + a * 26 from by omega]
  rw [Nat.add_mul_div_right _ _ (by norm_num : (0:ℕ) < 26),
    Nat.div_eq_of_lt (by omega), Nat.add_mul_mod_self_right,
    Nat.mod_eq_of_lt (by omega)]
  have : 65 + (d - 1) = 64 + d := by omega
  rw [Nat.zero_add, this]

theorem indexToLetters_lettersToIndex (L : List Char) (hne : L ≠ [])
    (hup : ∀ c ∈ L, 65 ≤ c.toNat ∧ c.toNat ≤ 90) :
    indexToLetters (lettersToIndex L) = L := by
  induction L using List.reverseRecOn with
  | nil => exact absurd rfl hne
  | append_singleton xs x ih =>
    have hx := hup x (by simp)
    have hmem : ∀ c ∈ xs, 65 ≤ c.toNat ∧ c.toNat ≤ 90 :=
      fun c hc => hup c (by simp [hc])
    rw [lettersToIndex_append_singleton,
      indexToLetters_mul_add _ _ (by omega) (by omega)]
    have hchar : Char.ofNat (64 + (x.toNat - 64)) = x := by
      rw [show 64 + (x.toNat - 64) = x.toNat from by omega, Char.ofNat_toNat]
    rw [hchar]
    by_cases hxs : xs = []
    · simp [hxs, lettersToIndex, indexToLetters_zero]
    · rw [ih hxs hmem]

theorem assocFind_assocSet {α : Type} (m : List (String × α)) (k k' : String) (v : α) :
    assocFind (assocSet m k v) k' = if k = k' then some v else assocFind m k' := by
  induction m with
  | nil => by_cases hk : k = k' <;> simp [assocSet, assocFind, hk]
  | cons p rest ih =>
    obtain ⟨pk, pv⟩ := p
    by_cases hpk : pk = k
    · subst hpk
      by_cases hk : pk = k' <;> simp [assocSet, assocFind, hk]
    · by_cases hk : pk = k'
      · subst hk
        simp [assocSet, assocFind, hpk, Ne.symm hpk]
      · simp [assocSet, assocFind, hpk, hk, ih]

theorem setCell_sheet (e : Engine) (s a : String) (v : Value) :
    assocFind (setCell e s a v).sheets s
      = some (assocSet ((assocFind e.sheets s).getD []) (jsToUpper a) v) := by
  by_cases h : assocHas e.sheets s
  · simp only [setCell, addSheet, h, if_true]
    rw [assocFind_assocSet]
    simp
  · simp only [setCell, addSheet, h, if_false, Bool.false_eq_true]
    have hnone : assocFind e.sheets s = none := by
      cases hfind : assocFind e.sheets s with
      | none => rfl
      | some x => exact absurd (by simp [assocHas, hfind]) h
    simp only [assocFind_assocSet, if_pos rfl, hnone]
    rfl

theorem setCell_other_sheet (e : Engine) (s a : String) (v : Value) (s' : String)
    (hne : s ≠ s') :
    assocFind (setCell e s a v).sheets s' = assocFind e.sheets s' := by
  by_cases h : assocHas e.sheets s
  · simp only [setCell, addSheet, h, if_true]
    rw [assocFind_assocSet, if_neg hne]
  · simp only [setCell, addSheet, h, if_false, Bool.false_eq_true]
    rw [assocFind_assocSet, if_neg hne, assocFind_assocSet, if_neg hne]

theorem getCell_setCell (e : Engine) (s a s' a' : String) (v : Value) :
    getCell (setCell e s a v) s' a'
      = if s' = s ∧ jsToUpper a' = jsToUpper a then some v else getCell e s' a' := by
  by_cases hs : s' = s
  · subst hs
    rw [getCell, setCell_sheet]
    dsimp only
    rw [assocFind_assocSet]
    by_cases ha : jsToUpper a = jsToUpper a'
    · simp [ha]
    · have ha' : ¬ jsToUpper a' = jsToUpper a := fun hcontra => ha hcontra.symm
      simp only [if_neg ha, ha', and_false, if_false, getCell]
      cases hfind : assocFind e.sheets s' with
      | none => simp [assocFind]
      | some sheet => simp
  · have hs2 : ¬ (s' = s ∧ jsToUpper a' = jsToUpper a) := fun hc => hs hc.1
    rw [if_neg hs2, getCell, getCell, setCell_other_sheet e s a v s' (fun hc => hs hc.symm)]

theorem getCell_missing_sheet (eng : Engine) (s a : String)
    (h : assocFind eng.sheets s = none) : getCell eng s a = none := by
  simp [getCell, h]

theorem assocHas_setCell_self (e : Engine) (s a : String) (v : Value) :
    assocHas (setCell e s a v).sheets s = true := by
  simp [assocHas, setCell_sheet]

theorem assocHas_setCell_mono (e : Engine) (s s' a : String) (v : Value)
    (h : assocHas e.sheets s = true) :
    assocHas (setCell e s' a v).sheets s = true := by
  by_cases hs : s' = s
  · subst hs; exact assocHas_setCell_self e s' a v
  · simpa [assocHas, setCell_other_sheet e s' a v s (fun hc => hs hc)] using h

theorem assocHas_writeFold (s : String) (ps : List (String × Value)) (e : Engine)
    (h : assocHas e.sheets s = true) :
    assocHas ((ps.foldl (fun acc p => setCell acc s p.1 p.2) e)).sheets s = true := by
  induction ps generalizing e with
  | nil => exact h
  | cons p rest ih =>
    exact ih (setCell e s p.1 p.2) (assocHas_setCell_mono e s s p.1 p.2 h)

theorem indexArg_num (n : ℕ) (h : 1 ≤ n) :
    indexArg (.num (n : ℚ)) = some (((n - 1 : ℕ) : ℚ)) := by
  have hq : ((n : ℚ)) ≠ 0 := by
    have h0 : n ≠ 0 := by omega
    exact_mod_cast h0
  simp only [indexArg, jsTruthy]
  rw [if_pos (by simp [hq])]
  show some (((n : ℚ)) - 1) = some (((n - 1 : ℕ) : ℚ))
  rw [Nat.cast_sub h, Nat.cast_one]

theorem listGet_natIndex (l : List Value) (k : ℕ) :
    listGet l (some ((k : ℕ) : ℚ)) = l[k]? := by
  have h0 : (0 : ℚ) ≤ (k : ℚ) := by positivity
  simp [listGet, h0, Rat.den_natCast, Rat.num_natCast]

theorem idxNeg_natCast (k : ℕ) : idxNeg (some ((k : ℕ) : ℚ)) = false := by
  simp only [idxNeg, decide_eq_false_iff_not, not_lt]
  positivity

theorem idxGe_natCast (k len : ℕ) : idxGe (some ((k : ℕ) : ℚ)) len = decide (len ≤ k) := by
  simp [idxGe, Nat.cast_le]

theorem digitChar_toNat (d : ℕ) (h : d < 10) :
    (Char.ofNat (48 + d)).toNat = 48 + d := by
  interval_cases d <;> decide

theorem indexToLetters_chars (c : ℕ) :
    ∀ ch ∈ indexToLetters c, 65 ≤ ch.toNat ∧ ch.toNat ≤ 90 := by
  induction c using Nat.strong_induction_on with
  | _ c ih =>
    match c with
    | 0 => intro ch hch; rw [indexToLetters_zero] at hch; exact absurd hch (by simp)
    | k + 1 =>
      intro ch hch
      rw [indexToLetters_succ] at hch
      rcases List.mem_append.mp hch with h | h
      · exact ih (k / 26) (Nat.lt_succ_of_le (Nat.div_le_self k 26)) ch h
      · rw [List.mem_singleton] at h
        subst h
        exact letter_bounds (k % 26) (Nat.mod_lt k (by norm_num))

theorem natDigits_chars (n : ℕ) :
    ∀ ch ∈ natDigits n, 48 ≤ ch.toNat ∧ ch.toNat ≤ 57 := by
  induction n using Nat.strong_induction_on with
  | _ n ih =>
    match n with
    | 0 => intro ch hch; exact absurd hch (by simp [natDigits, natDigitsAux])
    | k + 1 =>
      intro ch hch
      rw [natDigits_succ] at hch
      rcases List.mem_append.mp hch with h | h
      · have hlt : (k + 1) / 10 < k + 1 := Nat.div_lt_self (Nat.succ_pos k) (by norm_num)
        exact ih ((k + 1) / 10) hlt ch h
      · rw [List.mem_singleton] at h
        subst h
        have hd : (k + 1) % 10 < 10 := Nat.mod_lt _ (by norm_num)
        rw [digitChar_toNat _ hd]
        omega

theorem natToString_chars (n : ℕ) :
    ∀ ch ∈ (natToString n).data, 48 ≤ ch.toNat ∧ ch.toNat ≤ 57 := by
  by_cases h : n = 0
  · subst h
    intro ch hch
    have hc : ch = '0' := by simpa [natToString] using hch
    subst hc
    decide
  · intro ch hch
    simp only [natToString, if_neg h] at hch
    exact natDigits_chars n ch hch

theorem natToString_ne_nil (n : ℕ) : (natToString n).data ≠ [] := by
  by_cases h : n = 0
  · subst h; simp [natToString]
  · simp only [natToString, if_neg h]
    match n, h with
    | k + 1, _ =>
      show natDigits (k + 1) ≠ []
      rw [natDigits_succ]
      simp

theorem digitsToNat_append_singleton (xs : List Char) (c : Char) :
    digitsToNat (xs ++ [c]) = digitsToNat xs * 10 + (c.toNat - 48) := by
  simp [digitsToNat]

theorem digitsToNat_natDigits (n : ℕ) : digitsToNat (natDigits n) = n := by
  induction n using Nat.strong_induction_on with
  | _ n ih =>
    match n with
    | 0 => rfl
    | k + 1 =>
      rw [natDigits_succ, digitsToNat_append_singleton,
        ih ((k + 1) / 10) (Nat.div_lt_self (Nat.succ_pos k) (by norm_num)),
        digitChar_toNat _ (Nat.mod_lt _ (by norm_num))]
      have hdm := Nat.div_add_mod (k + 1) 10
      omega

theorem digitsToNat_natToString (n : ℕ) : digitsToNat (natToString n).data = n := by
  by_cases h : n = 0
  · subst h; rfl
  · simp only [natToString, if_neg h]
    exact digitsToNat_natDigits n

theorem takeWhile_append_cons (p : Char → Bool) (xs : List Char) (y : Char) (ys : List Char)
    (hxs : ∀ x ∈ xs, p x = true) (hy : p y = false) :
    (xs ++ y :: ys).takeWhile p = xs := by
  induction xs with
  | nil => simp [List.takeWhile_cons, hy]
  | cons a as ih =>
    simp only [List.cons_append, List.takeWhile_cons, hxs a (by simp)]
    simp [ih (fun x hx => hxs x (by simp [hx]))]

theorem dropWhile_append_cons (p : Char → Bool) (xs : List Char) (y : Char) (ys : List Char)
    (hxs : ∀ x ∈ xs, p x = true) (hy : p y = false) :
    (xs ++ y :: ys).dropWhile p = y :: ys := by
  induction xs with
  | nil => simp [List.dropWhile_cons, hy]
  | cons a as ih =>
    simp only [List.cons_append, List.dropWhile_cons, hxs a (by simp)]
    simp [ih (fun x hx => hxs x (by simp [hx]))]

/-- The upper-case letter predicate separating the column part from the row
    part of a generated A1 string. -/
def isUpperLetter (ch : Char) : Bool := decide (65 ≤ ch.toNat ∧ ch.toNat ≤ 90)

theorem alpha_digit_split (xs1 ys1 xs2 ys2 : List Char)
    (hxs1 : ∀ x ∈ xs1, isUpperLetter x = true) (hxs2 : ∀ x ∈ xs2, isUpperLetter x = true)
    (hys1 : ∀ y ∈ ys1, 48 ≤ y.toNat ∧ y.toNat ≤ 57)
    (hys2 : ∀ y ∈ ys2, 48 ≤ y.toNat ∧ y.toNat ≤ 57)
    (hne1 : ys1 ≠ []) (hne2 : ys2 ≠ [])
    (heq : xs1 ++ ys1 = xs2 ++ ys2) : xs1 = xs2 ∧ ys1 = ys2 := by
  cases ys1 with
  | nil => exact absurd rfl hne1
  | cons y1 t1 =>
    cases ys2 with
    | nil => exact absurd rfl hne2
    | cons y2 t2 =>
      have hy1 : isUpperLetter y1 = false := by
        have := hys1 y1 (by simp)
        simp only [isUpperLetter, decide_eq_false_iff_not]
        omega
      have hy2 : isUpperLetter y2 = false := by
        have := hys2 y2 (by simp)
        simp only [isUpperLetter, decide_eq_false_iff_not]
        omega
      have hx : xs1 = xs2 := by
        have h1 := takeWhile_append_cons isUpperLetter xs1 y1 t1 hxs1 hy1
        have h2 := takeWhile_append_cons isUpperLetter xs2 y2 t2 hxs2 hy2
        rw [← h1, ← h2, heq]
      have hy : y1 :: t1 = y2 :: t2 := by
        have h1 := dropWhile_append_cons isUpperLetter xs1 y1 t1 hxs1 hy1
        have h2 := dropWhile_append_cons isUpperLetter xs2 y2 t2 hxs2 hy2
        rw [← h1, ← h2, heq]
      exact ⟨hx, hy⟩

theorem rowColToA1_data (row col : ℕ) :
    (rowColToA1 row col).data = indexToLetters col ++ (natToString row).data := rfl

theorem rowColToA1_inj (r1 c1 r2 c2 : ℕ) (h : rowColToA1 r1 c1 = rowColToA1 r2 c2) :
    r1 = r2 ∧ c1 = c2 := by
  have hdata : indexToLetters c1 ++ (natToString r1).data
      = indexToLetters c2 ++ (natToString r2).data := by
    rw [← rowColToA1_data, ← rowColToA1_data, h]
  have hsplit := alpha_digit_split _ _ _ _
    (fun x hx => by
      have := indexToLetters_chars c1 x hx
      simp only [isUpperLetter, decide_eq_true_eq]
      omega)
    (fun x hx => by
      have := indexToLetters_chars c2 x hx
      simp only [isUpperLetter, decide_eq_true_eq]
      omega)
    (natToString_chars r1) (natToString_chars r2)
    (natToString_ne_nil r1) (natToString_ne_nil r2) hdata
  constructor
  · have := congrArg digitsToNat hsplit.2
    rwa [digitsToNat_natToString, digitsToNat_natToString] at this
  · have := congrArg lettersToIndex hsplit.1
    rwa [lettersToIndex_indexToLetters, lettersToIndex_indexToLetters] at this

theorem jsCharToUpper_of_not_lower (ch : Char) (h : isLowerAlpha ch = false) :
    jsCharToUpper ch = ch := by
  simp [jsCharToUpper, h]

theorem jsToUpper_rowColToA1 (row col : ℕ) :
    jsToUpper (rowColToA1 row col) = rowColToA1 row col := by
  have hfix : ∀ ch ∈ (rowColToA1 row col).data, jsCharToUpper ch = ch := by
    intro ch hch
    rw [rowColToA1_data] at hch
    apply jsCharToUpper_of_not_lower
    simp only [isLowerAlpha, decide_eq_false_iff_not]
    rcases List.mem_append.mp hch with h | h
    · have := indexToLetters_chars col ch h
      omega
    · have := natToString_chars row ch h
      omega
  have hmap : (rowColToA1 row col).data.map jsCharToUpper = (rowColToA1 row col).data := by
    rw [List.map_congr_left hfix]
    simp
  rw [jsToUpper, hmap]

theorem getCell_writeFold_skip (s : String) (ps : List (String × Value)) (e : Engine)
    (k : String) (hkeys : ∀ p ∈ ps, jsToUpper p.1 = p.1) (hk : jsToUpper k = k)
    (hnot : k ∉ ps.map Prod.fst) :
    getCell (ps.foldl (fun acc p => setCell acc s p.1 p.2) e) s k = getCell e s k := by
  induction ps generalizing e with
  | nil => rfl
  | cons p rest ih =>
    rw [List.foldl_cons,
      ih (setCell e s p.1 p.2) (fun q hq => hkeys q (by simp [hq]))
        (fun hc => hnot (by simp [hc])),
      getCell_setCell, if_neg]
    intro hc
    apply hnot
    have : k = p.1 := by
      rw [← hk, ← hkeys p (by simp)]
      exact hc.2
    simp [this]

theorem getCell_writeFold (s : String) (ps : List (String × Value)) (e : Engine)
    (k : String) (v : Value) (hkeys : ∀ p ∈ ps, jsToUpper p.1 = p.1)
    (hnodup : (ps.map Prod.fst).Nodup) (hmem : (k, v) ∈ ps) :
    getCell (ps.foldl (fun acc p => setCell acc s p.1 p.2) e) s k = some v := by
  induction ps generalizing e with
  | nil => exact absurd hmem (by simp)
  | cons p rest ih =>
    rw [List.foldl_cons]
    rcases List.mem_cons.mp hmem with hp | hp
    · have hk : k = p.1 := congrArg Prod.fst hp
      have hv : v = p.2 := congrArg Prod.snd hp
      have hkup : jsToUpper k = k := by rw [hk]; exact hkeys p (by simp)
      have hnot : k ∉ rest.map Prod.fst := by
        rw [hk]
        exact (List.nodup_cons.mp (by simpa using hnodup)).1
      rw [getCell_writeFold_skip s rest (setCell e s p.1 p.2) k
        (fun q hq => hkeys q (by simp [hq])) hkup hnot,
        getCell_setCell, if_pos ⟨rfl, congrArg jsToUpper hk⟩, hv]
    · exact ih (setCell e s p.1 p.2) (fun q hq => hkeys q (by simp [hq]))
        (by simpa using (List.nodup_cons.mp (by simpa using hnodup)).2) hp

theorem getD_map_range {α : Type} (n : ℕ) (f : ℕ → α) (i : ℕ) (d : α) (h : i < n) :
    ((List.range n).map f).getD i d = f i := by
  rw [List.getD_eq_getElem?_getD, List.getElem?_map, List.getElem?_range h]
  rfl

theorem setRangeWrites_keys_nodup (b : RangeBounds) (values : List (List Value)) :
    ((setRangeWrites b values).map Prod.fst).Nodup := by
  have hkeys : (setRangeWrites b values).map Prod.fst
      = (List.range (b.rowsMax - b.rowsMin + 1)).flatMap (fun i =>
          (List.range (b.colsMax - b.colsMin + 1)).map (fun j =>
            rowColToA1 (b.rowsMin + i) (b.colsMin + j))) := by
    simp only [setRangeWrites, List.map_flatMap, List.map_map]
    rfl
  rw [hkeys]
  rw [List.nodup_flatMap]
  constructor
  · intro i _
    refine List.Nodup.map ?_ (List.nodup_range _)
    intro j1 j2 hj
    have := (rowColToA1_inj _ _ _ _ hj).2
    omega
  · refine (List.pairwise_lt_range _).imp ?_
    intro i1 i2 hlt
    rw [Function.onFun, List.disjoint_left]
    intro k hk1 hk2
    simp only [List.mem_map, List.mem_range] at hk1 hk2
    obtain ⟨j1, _, hk1⟩ := hk1
    obtain ⟨j2, _, hk2⟩ := hk2
    have heq : rowColToA1 (b.rowsMin + i1) (b.colsMin + j1)
        = rowColToA1 (b.rowsMin + i2) (b.colsMin + j2) := by rw [hk1, hk2]
    have := (rowColToA1_inj _ _ _ _ heq).1
    omega

theorem setRangeWrites_mem (b : RangeBounds) (values : List (List Value))
    (i j : ℕ) (hi : i < b.rowsMax - b.rowsMin + 1) (hj : j < b.colsMax - b.colsMin + 1) :
    (rowColToA1 (b.rowsMin + i) (b.colsMin + j), (values.getD i []).getD j .undef)
      ∈ setRangeWrites b values := by
  simp only [setRangeWrites, List.mem_flatMap]
  refine ⟨i, by simp [hi], ?_⟩
  simp only [List.mem_map]
  exact ⟨j, by simp [hj], rfl⟩

/-! ## Claim theorems -/

/-- C7: column-letter/index conversion is a bijection with A=1 base-26: every
    upper-case letter string round-trips through its index, and every index
    `n ≥ 1` round-trips through its letter string (the conversions are the
    letter fold of `a1ToRowCol` and the letter loop of `rowColToA1`). -/
theorem col_letters_index_bijection :
    (∀ L : List Char, L ≠ [] → (∀ c ∈ L, 65 ≤ c.toNat ∧ c.toNat ≤ 90) →
      indexToLetters (lettersToIndex L) = L)
    ∧ (∀ n : ℕ, 1 ≤ n → lettersToIndex (indexToLetters n) = n) :=
  ⟨fun L hne hup => indexToLetters_lettersToIndex L hne hup,
   fun n _ => lettersToIndex_indexToLetters n⟩

/-- Witness for C7 at the concrete column "AB" (index 28). -/
theorem col_letters_index_bijection_witness :
    indexToLetters (lettersToIndex ['A', 'B']) = ['A', 'B']
    ∧ lettersToIndex (indexToLetters 28) = 28 :=
  ⟨col_letters_index_bijection.1 ['A', 'B'] (by simp) (by decide),
   col_letters_index_bijection.2 28 (by norm_num)⟩

/-- C9: registry membership and lookup are case-insensitive.  After
    registering an implementation under a name `N`, every case-variant `Np`
    of `N` (same upper-case form) passes `has` and `get` returns the same
    implementation as for `N`. -/
theorem registry_case_insensitive {α : Type} (r : BuiltinRegistry α) (N Np : String)
    (f : α) (hcase : jsToUpper Np = jsToUpper N) :
    (r.register N f).has Np = true
    ∧ (r.register N f).get Np = (r.register N f).get N
    ∧ (r.register N f).get Np = some f := by
  have hget : (r.register N f).get Np = some f := by
    simp [BuiltinRegistry.get, BuiltinRegistry.register, hcase, assocFind_assocSet]
  have hgetN : (r.register N f).get N = some f := by
    simp [BuiltinRegistry.get, BuiltinRegistry.register, assocFind_assocSet]
  refine ⟨?_, by rw [hget, hgetN], hget⟩
  simp [BuiltinRegistry.has, assocHas]
  rw [show assocFind (r.register N f).map (jsToUpper Np)
        = (r.register N f).get Np from rfl, hget]
  rfl

/-- C2 counterexample: `set_cell` with the accepted textual form `$a$1` stores
    the value under the key `$A$1` — upper-cased but with the absolute markers
    kept — while the canonical form computed by `normalizeAddress` is `A1`, and
    the sheet map holds nothing under `A1`.  This refutes the claim that every
    accepted address form is stored under its canonical key. -/
theorem setCell_noncanonical_key_counterexample :
    assocFind ((assocFind (setCell emptyEngine "S" "$a$1" (.num 5)).sheets "S").getD [])
        "$A$1" = some (.num 5)
    ∧ normalizeAddress "$a$1" "S" = .ok ("S", "A1")
    ∧ "$A$1" ≠ "A1"
    ∧ assocFind ((assocFind (setCell emptyEngine "S" "$a$1" (.num 5)).sheets "S").getD [])
        "A1" = none :=
  ⟨rfl, rfl, by decide, rfl⟩

/-- C2 amended: the key under which `set_cell` stores a value is
    `address.toUpperCase()` verbatim — upper-cased, absolute markers not
    stripped — so the stored key is canonical exactly when the upper-cased
    input already is; all other keys of the sheet map are unchanged, and
    `get_cell` with any address of the same upper-case form reads the value
    back. -/
theorem setCell_key_is_uppercased_verbatim (e : Engine) (s a : String) (v : Value) :
    getCell (setCell e s a v) s a = some v
    ∧ assocFind ((assocFind (setCell e s a v).sheets s).getD []) (jsToUpper a) = some v
    ∧ ∀ k, k ≠ jsToUpper a →
        assocFind ((assocFind (setCell e s a v).sheets s).getD []) k
          = assocFind ((assocFind e.sheets s).getD []) k := by
  have hsheet := setCell_sheet e s a v
  refine ⟨?_, ?_, ?_⟩
  · rw [getCell, hsheet]
    dsimp only
    rw [assocFind_assocSet, if_pos rfl]
  · rw [hsheet]
    simp only [Option.getD_some]
    rw [assocFind_assocSet, if_pos rfl]
  · intro k hk
    rw [hsheet]
    simp only [Option.getD_some]
    rw [assocFind_assocSet, if_neg (fun h => hk h.symm)]

/-- Witness for the amended C2 at the concrete write of `$a$1`. -/
theorem setCell_key_is_uppercased_verbatim_witness :
    getCell (setCell emptyEngine "S" "$a$1" (.num 5)) "S" "$a$1" = some (.num 5)
    ∧ assocFind ((assocFind (setCell emptyEngine "S" "$a$1" (.num 5)).sheets "S").getD [])
        "$A$1" = some (.num 5)
    ∧ assocFind ((assocFind (setCell emptyEngine "S" "$a$1" (.num 5)).sheets "S").getD [])
        "B2" = assocFind ((assocFind emptyEngine.sheets "S").getD []) "B2" := by
  obtain ⟨h1, h2, h3⟩ := setCell_key_is_uppercased_verbatim emptyEngine "S" "$a$1" (.num 5)
  refine ⟨h1, ?_, h3 "B2" (by decide)⟩
  rw [show ("$A$1" : String) = jsToUpper "$a$1" from rfl]
  exact h2

/-- C5: the evaluator's binary-operation case evaluates both operands, coerces
    each with `coerceNumber`, returns a VALUE error when either coercion is
    non-finite, returns DIV0 for division exactly when the right operand
    coerces to zero, and otherwise returns the arithmetic result of the
    operator on the two coerced numbers. -/
theorem binop_semantics (f : ℕ) (eng : Engine) (reg : BuiltinRegistry FuncImpl)
    (s : String) (op : Char) (l r : Ast) (vis vis1 vis2 : List String) (vl vr : Value)
    (hl : evaluateAst f eng reg s l vis = (.ok vl, vis1))
    (hr : evaluateAst f eng reg s r vis1 = (.ok vr, vis2)) :
    ((coerceNumber vl = none ∨ coerceNumber vr = none) →
      evaluateAst (f + 1) eng reg s (.binop op l r) vis
        = (.ok (.error (mkErr ERROR.VALUE "Arithmetic with non-numeric values")), vis2))
    ∧ (∀ a b : ℚ, coerceNumber vl = some a → coerceNumber vr = some b →
        (op = '+' → evaluateAst (f + 1) eng reg s (.binop op l r) vis
            = (.ok (.num (a + b)), vis2))
        ∧ (op = '-' → evaluateAst (f + 1) eng reg s (.binop op l r) vis
            = (.ok (.num (a - b)), vis2))
        ∧ (op = '*' → evaluateAst (f + 1) eng reg s (.binop op l r) vis
            = (.ok (.num (a * b)), vis2))
        ∧ (op = '/' → b = 0 → evaluateAst (f + 1) eng reg s (.binop op l r) vis
            = (.ok (.error (mkErr ERROR.DIV0 "Division by zero")), vis2))
        ∧ (op = '/' → b ≠ 0 → evaluateAst (f + 1) eng reg s (.binop op l r) vis
            = (.ok (.num (a / b)), vis2))) := by
  constructor
  · intro hnone
    rcases hnone with hno | hno
    · cases hvr : coerceNumber vr <;> simp [evaluateAst, hl, hr, hno, hvr]
    · cases hvl : coerceNumber vl <;> simp [evaluateAst, hl, hr, hno, hvl]
  · intro a b ha hb
    refine ⟨?_, ?_, ?_, ?_, ?_⟩ <;> intro hop
    · subst hop; simp [evaluateAst, hl, hr, ha, hb]
    · subst hop; simp [evaluateAst, hl, hr, ha, hb]
    · subst hop; simp [evaluateAst, hl, hr, ha, hb]
    · intro hb0; subst hop; subst hb0; simp [evaluateAst, hl, hr, ha, hb]
    · intro hb0; subst hop; simp [evaluateAst, hl, hr, ha, hb, hb0]

/-- Witness for C5: `6 / 3` over literal operands evaluates to 2. -/
theorem binop_semantics_witness :
    evaluateAst 2 emptyEngine emptyReg "S" (.binop '/' (.lit (.num 6)) (.lit (.num 3))) []
      = (.ok (.num 2), []) := by
  have h := ((binop_semantics 1 emptyEngine emptyReg "S" '/' (.lit (.num 6)) (.lit (.num 3))
    [] [] [] (.num 6) (.num 3) rfl rfl).2 6 3 rfl rfl).2.2.2.2 rfl (by norm_num)
  rw [show (6 : ℚ) / 3 = 2 from by norm_num] at h
  exact h

/-- C10: in a binary arithmetic operation an empty-string operand coerces to
    the number 0 (a cell holding `""` contributes 0 to an addition and no error
    arises), while an absent cell evaluates to `undefined` and, like a logical
    operand, coerces to NaN, making the operation return a VALUE error. -/
theorem empty_string_zero_absent_bool_nan (f : ℕ) (eng : Engine)
    (reg : BuiltinRegistry FuncImpl) (s a : String) (vis : List String)
    (rs na : String) (q : ℚ) (b : Bool)
    (hnorm : normalizeAddress a s = .ok (rs, na))
    (hnv : ¬ (rs ++ "!" ++ na) ∈ vis)
    (hno : getCell eng rs na = none) :
    coerceNumber (.str "") = some 0
    ∧ evaluateAst (f + 2) eng reg s (.binop '+' (.lit (.str "")) (.lit (.num q))) vis
        = (.ok (.num (0 + q)), vis)
    ∧ coerceNumber .undef = none
    ∧ coerceNumber (.boolean b) = none
    ∧ evaluateCell (f + 1) eng reg s a vis = (.ok .undef, vis)
    ∧ evaluateAst (f + 2) eng reg s (.binop '+' (.lit .undef) (.lit (.num q))) vis
        = (.ok (.error (mkErr ERROR.VALUE "Arithmetic with non-numeric values")), vis)
    ∧ evaluateAst (f + 2) eng reg s (.binop '+' (.lit (.boolean b)) (.lit (.num q))) vis
        = (.ok (.error (mkErr ERROR.VALUE "Arithmetic with non-numeric values")), vis) := by
  have hcell : evaluateCell (f + 1) eng reg s a vis = (.ok .undef, vis) := by
    simp only [evaluateCell, hnorm]
    rw [if_neg hnv, hno]
    simp
  refine ⟨rfl, ?_, rfl, rfl, hcell, ?_, ?_⟩
  · simp [evaluateAst, coerceNumber, show jsStringToNum "" = some 0 from rfl]
  · simp [evaluateAst, coerceNumber]
  · simp [evaluateAst, coerceNumber]

/-- Witness for C10: in an engine with one empty sheet "S", `"" + 5` gives 5,
    the absent cell A1 evaluates to `undefined`, and `undefined + 5` and
    `true + 5` give VALUE errors. -/
theorem empty_string_zero_absent_bool_nan_witness :
    coerceNumber (.str "") = some 0
    ∧ evaluateAst 2 (addSheet emptyEngine "S") emptyReg "S"
        (.binop '+' (.lit (.str "")) (.lit (.num 5))) [] = (.ok (.num (0 + 5)), [])
    ∧ coerceNumber .undef = none
    ∧ coerceNumber (.boolean true) = none
    ∧ evaluateCell 1 (addSheet emptyEngine "S") emptyReg "S" "A1" [] = (.ok .undef, [])
    ∧ evaluateAst 2 (addSheet emptyEngine "S") emptyReg "S"
        (.binop '+' (.lit .undef) (.lit (.num 5))) []
        = (.ok (.error (mkErr ERROR.VALUE "Arithmetic with non-numeric values")), [])
    ∧ evaluateAst 2 (addSheet emptyEngine "S") emptyReg "S"
        (.binop '+' (.lit (.boolean true)) (.lit (.num 5))) []
        = (.ok (.error (mkErr ERROR.VALUE "Arithmetic with non-numeric values")), []) :=
  empty_string_zero_absent_bool_nan 0 (addSheet emptyEngine "S") emptyReg "S" "A1" []
    "S" "A1" 5 true rfl (by simp) rfl

/-- C3 counterexample: the cells `A1 = "=A2+1"`, `A2 = "=A1+1"` form an
    indirect reference cycle, yet evaluating A1 returns a VALUE error (the
    inner CYCLE error is coerced to NaN by the arithmetic), whose string form
    is `#VALUE!` and does not begin with `#CYCLE!`.  This refutes the claim
    that every cell of every direct or indirect reference cycle evaluates to a
    CYCLE error. -/
theorem cycle_through_arithmetic_counterexample :
    (evaluateCell 10 cyc2Engine emptyReg "S" "A1" []).1
      = .ok (.error (mkErr ERROR.VALUE "Arithmetic with non-numeric values"))
    ∧ strStartsWith (mkErr ERROR.VALUE "Arithmetic with non-numeric values").toStringV
        "#CYCLE!" = false :=
  ⟨rfl, rfl⟩

/-- C3 amended: when the visit key `sheet!canonical` of the requested cell is
    already in the visit set, `evaluateCell` returns a CYCLE error whose
    string form begins with `#CYCLE!`; a cycle of plain reference formulas
    (such as `A1 = "=A2"`, `A2 = "=A1"`) therefore evaluates to a CYCLE error,
    while a cycle routed through arithmetic may surface as a different error
    kind. -/
theorem cycle_detected_in_visit_set (f : ℕ) (eng : Engine)
    (reg : BuiltinRegistry FuncImpl) (s a rs na : String) (vis : List String)
    (hnorm : normalizeAddress a s = .ok (rs, na))
    (hv : (rs ++ "!" ++ na) ∈ vis) :
    evaluateCell (f + 1) eng reg s a vis
      = (.ok (.error (mkErr ERROR.CYCLE ("Circular reference at " ++ (rs ++ "!" ++ na)))), vis)
    ∧ strStartsWith
        (mkErr ERROR.CYCLE ("Circular reference at " ++ (rs ++ "!" ++ na))).toStringV
        "#CYCLE!" = true
    ∧ (evaluateCell 10 cycEngine emptyReg "S" "A1" []).1
        = .ok (.error (mkErr ERROR.CYCLE "Circular reference at S!A1"))
    ∧ (evaluateCell 10 cycEngine emptyReg "S" "A2" []).1
        = .ok (.error (mkErr ERROR.CYCLE "Circular reference at S!A2")) := by
  refine ⟨?_, by simp [CellError.toStringV, mkErr, ERROR.CYCLE, strStartsWith, strStartsWithAux], rfl, rfl⟩
  simp only [evaluateCell, hnorm]
  rw [if_pos hv]

/-- Witness for the amended C3: a self-referential address already in the
    visit set produces the CYCLE error directly. -/
theorem cycle_detected_in_visit_set_witness :
    evaluateCell 1 emptyEngine emptyReg "S" "A1" ["S!A1"]
      = (.ok (.error (mkErr ERROR.CYCLE "Circular reference at S!A1")), ["S!A1"])
    ∧ strStartsWith (mkErr ERROR.CYCLE "Circular reference at S!A1").toStringV
        "#CYCLE!" = true := by
  have h := cycle_detected_in_visit_set 0 emptyEngine emptyReg "S" "A1" "S" "A1"
    ["S!A1"] rfl (by simp)
  exact ⟨h.1, h.2.1⟩

/-- C4: the visit set is restored on every exit path.  For every fuel, engine,
    registry, sheet, address and incoming visit set, the visit set returned by
    `evaluateCell` equals the one passed in — including the paths where a
    parse error or an exception-equivalent raised during evaluation (for
    example by a called function) is caught, mirroring the `try/finally`
    scoped-acquisition pattern; the same holds for the AST walker and the list
    helpers, whose recursive calls only ever extend the set with the keys of
    the current call chain. -/
theorem visit_set_restored (f : ℕ) :
    (∀ eng reg s a vis, (evaluateCell f eng reg s a vis).2 = vis)
    ∧ (∀ eng reg s node vis, (evaluateAst f eng reg s node vis).2 = vis)
    ∧ (∀ eng reg s addrs vis, (evalCellList f eng reg s addrs vis).2 = vis)
    ∧ (∀ eng reg s args vis, (evalArgs f eng reg s args vis).2 = vis) := by
  induction f with
  | zero => exact ⟨fun _ _ _ _ _ => rfl, fun _ _ _ _ _ => rfl,
      fun _ _ _ _ _ => rfl, fun _ _ _ _ _ => rfl⟩
  | succ f ih =>
    obtain ⟨ihCell, ihAst, ihCL, ihArgs⟩ := ih
    have hCell : ∀ eng reg s a vis, (evaluateCell (f + 1) eng reg s a vis).2 = vis := by
      intro eng reg s a vis
      simp only [evaluateCell]
      cases hn : normalizeAddress a s with
      | error m => rfl
      | ok p =>
        obtain ⟨rs, na⟩ := p
        dsimp only
        by_cases hv : (rs ++ "!" ++ na) ∈ vis
        · rw [if_pos hv]
        · rw [if_neg hv]
          dsimp only
          cases hraw : getCell eng rs na with
          | none => exact List.erase_cons_head ..
          | some v =>
            cases v with
            | str sv =>
              dsimp only
              by_cases hsw : strStartsWith sv "=" = true
              · rw [if_pos hsw]
                cases hp : parseFormula (strDrop1 sv) with
                | error m => exact List.erase_cons_head ..
                | ok ast =>
                  dsimp only
                  have hiA := ihAst eng reg rs ast ((rs ++ "!" ++ na) :: vis)
                  cases hres : evaluateAst f eng reg rs ast ((rs ++ "!" ++ na) :: vis) with
                  | mk r1 r2 =>
                    rw [hres] at hiA
                    dsimp only at hiA
                    cases r1 <;> (dsimp only; rw [hiA]; exact List.erase_cons_head ..)
              · rw [if_neg hsw]
                exact List.erase_cons_head ..
            | num q => exact List.erase_cons_head ..
            | boolean b => exact List.erase_cons_head ..
            | error e => exact List.erase_cons_head ..
            | list vs => exact List.erase_cons_head ..
            | undef => exact List.erase_cons_head ..
            | null => exact List.erase_cons_head ..
    have hCL : ∀ eng reg s addrs vis, (evalCellList (f + 1) eng reg s addrs vis).2 = vis := by
      intro eng reg s addrs vis
      cases addrs with
      | nil => rfl
      | cons a rest =>
        simp only [evalCellList]
        have h1 := ihCell eng reg s a vis
        cases h1e : evaluateCell f eng reg s a vis with
        | mk r1 r2 =>
          rw [h1e] at h1
          dsimp only at h1
          cases r1 with
          | ok v =>
            dsimp only
            have h2 := ihCL eng reg s rest r2
            cases h2e : evalCellList f eng reg s rest r2 with
            | mk q1 q2 =>
              rw [h2e] at h2
              dsimp only at h2
              cases q1 <;> (dsimp only; exact h2.trans h1)
          | exn m => exact h1
          | fuelOut => exact h1
    have hArgs : ∀ eng reg s args vis, (evalArgs (f + 1) eng reg s args vis).2 = vis := by
      intro eng reg s args vis
      cases args with
      | nil => rfl
      | cons a rest =>
        simp only [evalArgs]
        have h1 := ihAst eng reg s a vis
        cases h1e : evaluateAst f eng reg s a vis with
        | mk r1 r2 =>
          rw [h1e] at h1
          dsimp only at h1
          cases r1 with
          | ok v =>
            dsimp only
            have h2 := ihArgs eng reg s rest r2
            cases h2e : evalArgs f eng reg s rest r2 with
            | mk q1 q2 =>
              rw [h2e] at h2
              dsimp only at h2
              cases q1 <;> (dsimp only; exact h2.trans h1)
          | exn m => exact h1
          | fuelOut => exact h1
    have hAst : ∀ eng reg s node vis, (evaluateAst (f + 1) eng reg s node vis).2 = vis := by
      intro eng reg s node vis
      cases node with
      | lit v => rfl
      | cell ref => exact ihCell eng reg s ref vis
      | range rstart rend =>
        simp only [evaluateAst]
        cases hn1 : normalizeAddress (qualifyIfNeeded rstart s) s with
        | error m => rfl
        | ok p1 =>
          obtain ⟨s1, a1⟩ := p1
          dsimp only
          cases hn2 : normalizeAddress (qualifyIfNeeded rend s) s with
          | error m => rfl
          | ok p2 =>
            obtain ⟨s2, a2⟩ := p2
            dsimp only
            by_cases hss : s1 ≠ s2
            · rw [if_pos hss]
            · rw [if_neg hss]
              cases he : expandRange a1 a2 with
              | error m => rfl
              | ok cells =>
                dsimp only
                have h1 := ihCL eng reg s1 cells vis
                cases h1e : evalCellList f eng reg s1 cells vis with
                | mk r1 r2 =>
                  rw [h1e] at h1
                  dsimp only at h1
                  cases r1 <;> exact h1
      | call fnName args =>
        simp only [evaluateAst]
        have h1 := ihArgs eng reg s args vis
        cases h1e : evalArgs f eng reg s args vis with
        | mk r1 r2 =>
          rw [h1e] at h1
          dsimp only at h1
          cases r1 with
          | ok vs =>
            dsimp only
            cases hg : BuiltinRegistry.get reg fnName with
            | none => exact h1
            | some fn =>
              dsimp only
              cases hf : fn vs <;> exact h1
          | exn m => exact h1
          | fuelOut => exact h1
      | binop op left right =>
        simp only [evaluateAst]
        have h1 := ihAst eng reg s left vis
        cases h1e : evaluateAst f eng reg s left vis with
        | mk r1 r2 =>
          rw [h1e] at h1
          dsimp only at h1
          cases r1 with
          | ok vl =>
            dsimp only
            have h2 := ihAst eng reg s right r2
            cases h2e : evaluateAst f eng reg s right r2 with
            | mk q1 q2 =>
              rw [h2e] at h2
              dsimp only at h2
              have h12 : q2 = vis := h2.trans h1
              cases q1 with
              | ok vr =>
                dsimp only
                cases hcl : coerceNumber vl with
                | none => cases hcr : coerceNumber vr <;> exact h12
                | some lq =>
                  cases hcr : coerceNumber vr with
                  | none => exact h12
                  | some rq =>
                    dsimp only
                    by_cases h3 : op = '+'
                    · simp [h3, h12]
                    · by_cases h4 : op = '-'
                      · simp [h3, h4, h12]
                      · by_cases h5 : op = '*'
                        · simp [h3, h4, h5, h12]
                        · by_cases h6 : op = '/'
                          · by_cases h7 : rq = 0 <;> simp [h3, h4, h5, h6, h7, h12]
                          · simp [h3, h4, h5, h6, h12]
              | exn m => exact h12
              | fuelOut => exact h12
          | exn m => exact h1
          | fuelOut => exact h1
    exact ⟨hCell, hAst, hCL, hArgs⟩

/-- C1 counterexample: with no sheet "S" in the workbook, `getRange` succeeds
    (returning a matrix of absent cells) instead of rejecting, and `setRange`
    succeeds and auto-creates the sheet instead of rejecting.  This refutes
    the claim that the engine's range layer rejects a missing sheet with an
    API-level error. -/
theorem missing_sheet_not_rejected_counterexample :
    assocFind emptyEngine.sheets "S" = none
    ∧ getRange 1 emptyEngine emptyReg "S" "A1:A1" "raw"
        = .ok { sheet := "S", range := "A1:A1",
                rows := [[{ address := "A1", raw := none, computed := none }]] }
    ∧ setRange 1 emptyEngine emptyReg "S" "A1:A1" [[.num 5]]
        = .ok (⟨[("S", [("A1", .num 5)])]⟩,
            { sheet := "S", range := "A1:A1",
              rows := [[{ address := "A1", raw := some (.num 5),
                          computed := some (.ok (.num 5)) }]] }) :=
  ⟨rfl, rfl, rfl⟩

/-- C1 amended: the engine's range layer does not reject a missing sheet.
    `get_range` on a sheet name absent from the workbook returns the normal
    matrix shape with every raw value absent (the missing sheet is read as
    empty), and `set_range` with a correctly-shaped matrix succeeds, the
    cell-level writes auto-creating the sheet. -/
theorem missing_sheet_range_api (fuel : ℕ) (eng : Engine)
    (reg : BuiltinRegistry FuncImpl) (sheetName rangeStr : String) (b : RangeBounds)
    (hparse : parseRangeRef rangeStr sheetName = .ok b)
    (hmiss : assocFind eng.sheets b.sheet = none) :
    (∃ res, getRange fuel eng reg sheetName rangeStr "raw" = .ok res
      ∧ ∀ row ∈ res.rows, ∀ cell ∈ row, cell.raw = none)
    ∧ (∀ values : List (List Value), values ≠ [] →
        values.length = b.rowsMax - b.rowsMin + 1 →
        (∀ row ∈ values, row.length = b.colsMax - b.colsMin + 1) →
        ∃ e1 res, setRange fuel eng reg sheetName rangeStr values = .ok (e1, res)
          ∧ assocHas e1.sheets b.sheet = true) := by
  constructor
  · refine ⟨_, by simp only [getRange, hparse]; rfl, ?_⟩
    intro row hrow cell hcell
    simp only [List.mem_map] at hrow
    obtain ⟨i, _, hrow⟩ := hrow
    subst hrow
    simp only [List.mem_map] at hcell
    obtain ⟨j, _, hcell⟩ := hcell
    subst hcell
    simp [getCell_missing_sheet eng b.sheet _ hmiss]
  · intro values hne hrows hcols
    have hempty : values.isEmpty = false := by
      cases values with
      | nil => exact absurd rfl hne
      | cons r rest => rfl
    have hshape : ¬ (values.length ≠ b.rowsMax - b.rowsMin + 1
        ∨ values.any (fun row => row.length ≠ b.colsMax - b.colsMin + 1) = true) := by
      rw [not_or]
      refine ⟨fun h => h hrows, ?_⟩
      rw [Bool.not_eq_true, List.any_eq_false]
      intro r hr
      simp [hcols r hr]
    have hwne : setRangeWrites b values ≠ [] := by
      simp only [setRangeWrites, ne_eq, List.flatMap_eq_nil_iff, not_forall]
      refine ⟨0, by simp, ?_⟩
      simp [List.range_succ_eq_map]
    cases hset : setRange fuel eng reg sheetName rangeStr values with
    | error m =>
      exfalso
      unfold setRange at hset
      rw [hempty] at hset
      simp only [Bool.false_eq_true, if_false, hparse] at hset
      rw [if_neg hshape] at hset
      exact Except.noConfusion hset
    | ok p =>
      obtain ⟨e1, res⟩ := p
      refine ⟨e1, res, rfl, ?_⟩
      unfold setRange at hset
      rw [hempty] at hset
      simp only [Bool.false_eq_true, if_false, hparse] at hset
      rw [if_neg hshape] at hset
      have he1 : e1
          = (setRangeWrites b values).foldl (fun acc p => setCell acc b.sheet p.1 p.2) eng := by
        have hp := Except.ok.inj hset
        exact (congrArg Prod.fst hp).symm
      rw [he1]
      cases hw : setRangeWrites b values with
      | nil => exact absurd hw hwne
      | cons q rest =>
        rw [List.foldl_cons]
        exact assocHas_writeFold b.sheet rest _ (assocHas_setCell_self eng b.sheet q.1 q.2)

/-- Witness for the amended C1 on the empty workbook and range `A1:A1`. -/
theorem missing_sheet_range_api_witness :
    (∃ res, getRange 1 emptyEngine emptyReg "S" "A1:A1" "raw" = .ok res
      ∧ ∀ row ∈ res.rows, ∀ cell ∈ row, cell.raw = none)
    ∧ (∃ e1 res, setRange 1 emptyEngine emptyReg "S" "A1:A1" [[.num 5]] = .ok (e1, res)
        ∧ assocHas e1.sheets "S" = true) := by
  have h := missing_sheet_range_api 1 emptyEngine emptyReg "S" "A1:A1"
    ⟨"S", "A1", "A1", 1, 1, 1, 1⟩ rfl rfl
  refine ⟨h.1, ?_⟩
  exact h.2 [[.num 5]] (by simp) (by simp)
    (by intro row hr; rw [List.mem_singleton] at hr; subst hr; simp)

/-- C8: INDEX with 1-based indices.  On a 2D array it returns the element at
    `[row-1][col-1]`, on a 1D array the element at `[row-1]`; an out-of-bounds
    index yields a REF error and a non-array first argument yields a VALUE
    error. -/
theorem INDEX_builtin_semantics (rows : List (List Value)) (vs : List Value) (v : Value)
    (r c : ℕ) (hr : 1 ≤ r) (hc : 1 ≤ c) :
    (rows ≠ [] →
      ((r ≤ rows.length → c ≤ (rows.getD (r - 1) []).length →
          (rows.getD (r - 1) []).getD (c - 1) .undef ≠ .undef →
          builtinINDEX [.list (rows.map .list), .num (r : ℚ), .num (c : ℚ)]
            = (rows.getD (r - 1) []).getD (c - 1) .undef)
        ∧ (rows.length < r →
            builtinINDEX [.list (rows.map .list), .num (r : ℚ), .num (c : ℚ)]
              = .error (mkErr ERROR.REF "INDEX out of bounds"))
        ∧ (r ≤ rows.length → (rows.getD (r - 1) []).length < c →
            builtinINDEX [.list (rows.map .list), .num (r : ℚ), .num (c : ℚ)]
              = .error (mkErr ERROR.REF "INDEX out of bounds"))))
    ∧ ((vs = [] ∨ isArrayV (vs.headD .undef) = false) →
        ((r ≤ vs.length →
            builtinINDEX [.list vs, .num (r : ℚ)] = vs.getD (r - 1) .undef)
          ∧ (vs.length < r →
              builtinINDEX [.list vs, .num (r : ℚ)]
                = .error (mkErr ERROR.REF "INDEX out of bounds"))))
    ∧ (isArrayV v = false →
        builtinINDEX [v, .num (r : ℚ), .num (c : ℚ)]
          = .error (mkErr ERROR.VALUE "INDEX expects array")) := by
  have hir := indexArg_num r hr
  have hic := indexArg_num c hc
  refine ⟨?_, ?_, ?_⟩
  · intro hne
    have hcond : (!(rows.map Value.list).isEmpty
        && isArrayV ((rows.map Value.list).headD .undef)) = true := by
      cases rows with
      | nil => exact absurd rfl hne
      | cons r0 rest => simp [isArrayV]
    have hget : listGet (rows.map Value.list) (some (((r - 1 : ℕ) : ℚ)))
        = (rows[r - 1]?).map Value.list := by
      rw [listGet_natIndex, List.getElem?_map]
    have h0 : ([Value.list (rows.map .list), Value.num (r : ℚ), Value.num (c : ℚ)].getD 0 .undef)
        = .list (rows.map .list) := rfl
    have h1 : ([Value.list (rows.map .list), Value.num (r : ℚ), Value.num (c : ℚ)].getD 1 .undef)
        = .num (r : ℚ) := rfl
    have h2 : ([Value.list (rows.map .list), Value.num (r : ℚ), Value.num (c : ℚ)].getD 2 .undef)
        = .num (c : ℚ) := rfl
    refine ⟨?_, ?_, ?_⟩
    · intro hrin hcin helem
      have hrlt : r - 1 < rows.length := by omega
      have hrow : rows[r - 1]? = some (rows.getD (r - 1) []) := by
        rw [List.getD_eq_getElem?_getD, List.getElem?_eq_getElem hrlt, Option.getD_some]
      have hclt : c - 1 < (rows.getD (r - 1) []).length := by omega
      have hcol : (rows.getD (r - 1) [])[c - 1]?
          = some ((rows.getD (r - 1) []).getD (c - 1) .undef) := by
        conv_rhs => rw [List.getD_eq_getElem?_getD, List.getElem?_eq_getElem hclt,
          Option.getD_some]
        exact List.getElem?_eq_getElem hclt
      simp only [builtinINDEX, h0, h1, h2, hcond, if_true, hir, hic, idxNeg_natCast,
        Bool.or_self, Bool.false_eq_true, if_false, hget, hrow, Option.map_some]
      simp only [Option.map_some', jsTruthy, Bool.not_true, Bool.false_eq_true, if_false,
        elemAt, listGet_natIndex, hcol]
    · intro hout
      have hrow : rows[r - 1]? = none := by
        rw [List.getElem?_eq_none]
        omega
      simp only [builtinINDEX, h0, h1, h2, hcond, if_true, hir, hic, idxNeg_natCast,
        Bool.or_self, Bool.false_eq_true, if_false, hget, hrow, Option.map_none]
      simp [Option.map_none']
    · intro hrin hout
      have hrlt : r - 1 < rows.length := by omega
      have hrow : rows[r - 1]? = some (rows.getD (r - 1) []) := by
        rw [List.getD_eq_getElem?_getD, List.getElem?_eq_getElem hrlt, Option.getD_some]
      have hcol : (rows.getD (r - 1) [])[c - 1]? = none := by
        rw [List.getElem?_eq_none]
        omega
      simp only [builtinINDEX, h0, h1, h2, hcond, if_true, hir, hic, idxNeg_natCast,
        Bool.or_self, Bool.false_eq_true, if_false, hget, hrow, Option.map_some]
      simp only [Option.map_some', jsTruthy, Bool.not_true, Bool.false_eq_true, if_false,
        elemAt, listGet_natIndex, hcol]
  · intro h1d
    have hcond : (!vs.isEmpty && isArrayV (vs.headD .undef)) = false := by
      rcases h1d with h | h
      · subst h; rfl
      · cases vs with
        | nil => rfl
        | cons a rest =>
          simp only [List.headD_cons] at h
          simp [h]
    have h0 : ([Value.list vs, Value.num (r : ℚ)].getD 0 .undef) = .list vs := rfl
    have h1 : ([Value.list vs, Value.num (r : ℚ)].getD 1 .undef) = .num (r : ℚ) := rfl
    refine ⟨?_, ?_⟩
    · intro hin
      have hge : idxGe (some (((r - 1 : ℕ) : ℚ))) vs.length = false := by
        rw [idxGe_natCast]
        simp only [decide_eq_false_iff_not, not_le]
        omega
      have hrow : vs[r - 1]? = some (vs.getD (r - 1) .undef) := by
        rw [List.getD_eq_getElem?_getD, List.getElem?_eq_getElem (show r - 1 < vs.length by omega),
          Option.getD_some]
      simp only [builtinINDEX, h0, h1, hcond, Bool.false_eq_true, if_false, hir,
        idxNeg_natCast, hge, Bool.or_self, listGet_natIndex, hrow, Option.getD_some]
    · intro hout
      have hge : idxGe (some (((r - 1 : ℕ) : ℚ))) vs.length = true := by
        rw [idxGe_natCast]
        simp only [decide_eq_true_eq]
        omega
      simp only [builtinINDEX, h0, h1, hcond, Bool.false_eq_true, if_false, hir,
        idxNeg_natCast, hge, Bool.or_true, if_true]
  · intro hnotarr
    cases v with
    | list l => exact absurd hnotarr (by simp [isArrayV])
    | num q => rfl
    | str s => rfl
    | boolean b => rfl
    | error e => rfl
    | undef => rfl
    | null => rfl

/-- Witness for C8: INDEX over the table [[1,"a"],[3,"b"]] and a 1D list. -/
theorem INDEX_builtin_semantics_witness :
    builtinINDEX [.list [.list [.num 1, .str "a"], .list [.num 3, .str "b"]],
        .num 2, .num 2] = .str "b"
    ∧ builtinINDEX [.list [.list [.num 1, .str "a"], .list [.num 3, .str "b"]],
        .num 3, .num 2] = .error (mkErr ERROR.REF "INDEX out of bounds")
    ∧ builtinINDEX [.list [.num 10, .num 20, .num 30], .num 2] = .num 20
    ∧ builtinINDEX [.list [.num 10, .num 20, .num 30], .num 7]
        = .error (mkErr ERROR.REF "INDEX out of bounds")
    ∧ builtinINDEX [.num 7, .num 1, .num 1]
        = .error (mkErr ERROR.VALUE "INDEX expects array") := by
  have h := INDEX_builtin_semantics [[.num 1, .str "a"], [.num 3, .str "b"]]
    [.num 10, .num 20, .num 30] (.num 7) 2 2 (by norm_num) (by norm_num)
  have h2 := INDEX_builtin_semantics [[.num 1, .str "a"], [.num 3, .str "b"]]
    [.num 10, .num 20, .num 30] (.num 7) 3 2 (by norm_num) (by norm_num)
  have h3 := INDEX_builtin_semantics [[.num 1, .str "a"], [.num 3, .str "b"]]
    [.num 10, .num 20, .num 30] (.num 7) 7 1 (by norm_num) (by norm_num)
  refine ⟨?_, ?_, ?_, ?_, ?_⟩
  · have := (h.1 (by simp)).1 (by simp) (by simp) (by simp)
    simpa using this
  · have := (h2.1 (by simp)).2.1 (by simp)
    simpa using this
  · have := (h.2.1 (Or.inr (by simp [isArrayV]))).1 (by simp)
    simpa using this
  · have := (h3.2.1 (Or.inr (by simp [isArrayV]))).2 (by simp)
    simpa using this
  · exact h.2.2 (by simp [isArrayV])

/-- C6: writing a matrix whose shape equals the range's dimensions through
    `set_range` and reading the range back with `get_range` in raw mode yields
    the written values elementwise (row-major, same positions); a non-empty
    matrix whose shape differs from the range's dimensions is rejected by
    `set_range` with the shape-mismatch error. -/
theorem set_then_get_range_raw (fuel : ℕ) (eng : Engine) (reg : BuiltinRegistry FuncImpl)
    (sheetName rangeStr : String) (b : RangeBounds) (values : List (List Value))
    (hparse : parseRangeRef rangeStr sheetName = .ok b)
    (hrows : values.length = b.rowsMax - b.rowsMin + 1)
    (hcols : ∀ row ∈ values, row.length = b.colsMax - b.colsMin + 1) :
    (∃ e1 res1 res, setRange fuel eng reg sheetName rangeStr values = .ok (e1, res1)
        ∧ getRange fuel e1 reg sheetName rangeStr "raw" = .ok res
        ∧ res.rows.length = values.length
        ∧ ∀ i < values.length, ∀ j < b.colsMax - b.colsMin + 1,
            ((res.rows.getD i []).getD j ⟨"", none, none⟩).raw
              = some ((values.getD i []).getD j .undef))
    ∧ (∀ values2 : List (List Value), values2 ≠ [] →
        (values2.length ≠ b.rowsMax - b.rowsMin + 1
          ∨ ∃ row ∈ values2, row.length ≠ b.colsMax - b.colsMin + 1) →
        setRange fuel eng reg sheetName rangeStr values2
          = .error ("values shape " ++ natToString values2.length ++ "x"
              ++ natToString (values2.headD []).length ++ " does not match range size "
              ++ natToString (b.rowsMax - b.rowsMin + 1) ++ "x"
              ++ natToString (b.colsMax - b.colsMin + 1))) := by
  constructor
  · have hempty : values.isEmpty = false := by
      cases values with
      | nil => simp at hrows
      | cons r rest => rfl
    have hshape : ¬ (values.length ≠ b.rowsMax - b.rowsMin + 1
        ∨ values.any (fun row => row.length ≠ b.colsMax - b.colsMin + 1) = true) := by
      rw [not_or]
      refine ⟨fun h => h hrows, ?_⟩
      rw [Bool.not_eq_true, List.any_eq_false]
      intro r hr
      simp [hcols r hr]
    cases hset : setRange fuel eng reg sheetName rangeStr values with
    | error m =>
      exfalso
      unfold setRange at hset
      rw [hempty] at hset
      simp only [Bool.false_eq_true, if_false, hparse] at hset
      rw [if_neg hshape] at hset
      exact Except.noConfusion hset
    | ok p =>
      obtain ⟨e1, res1⟩ := p
      unfold setRange at hset
      rw [hempty] at hset
      simp only [Bool.false_eq_true, if_false, hparse] at hset
      rw [if_neg hshape] at hset
      have he1 : e1
          = (setRangeWrites b values).foldl (fun acc p => setCell acc b.sheet p.1 p.2) eng :=
        (congrArg Prod.fst (Except.ok.inj hset)).symm
      cases hgr : getRange fuel e1 reg sheetName rangeStr "raw" with
      | error m =>
        exfalso
        simp only [getRange, hparse] at hgr
        exact Except.noConfusion hgr
      | ok res =>
        refine ⟨e1, res1, res, rfl, hgr, ?_, ?_⟩
        · simp only [getRange, hparse] at hgr
          have hres := Except.ok.inj hgr
          rw [← hres]
          simp [hrows]
        · intro i hi j hj
          simp only [getRange, hparse] at hgr
          have hres := Except.ok.inj hgr
          rw [← hres]
          dsimp only
          rw [getD_map_range _ _ i _ (by omega), getD_map_range _ _ j _ hj]
          show (if ("raw" : String) = "raw" ∨ ("raw" : String) = "both"
              then getCell e1 b.sheet (rowColToA1 (b.rowsMin + i) (b.colsMin + j)) else none)
            = some ((values.getD i []).getD j .undef)
          rw [if_pos (Or.inl rfl), he1]
          apply getCell_writeFold
          · intro p hp
            simp only [setRangeWrites, List.mem_flatMap, List.mem_map] at hp
            obtain ⟨i', _, j', _, hp⟩ := hp
            rw [← hp]
            exact jsToUpper_rowColToA1 _ _
          · exact setRangeWrites_keys_nodup b values
          · exact setRangeWrites_mem b values i j (by omega) hj
  · intro values2 hne hmis
    have hempty2 : values2.isEmpty = false := by
      cases values2 with
      | nil => exact absurd rfl hne
      | cons r rest => rfl
    have hshape2 : values2.length ≠ b.rowsMax - b.rowsMin + 1
        ∨ values2.any (fun row => row.length ≠ b.colsMax - b.colsMin + 1) = true := by
      rcases hmis with h | ⟨row, hmem, hlen⟩
      · exact Or.inl h
      · refine Or.inr ?_
        rw [List.any_eq_true]
        exact ⟨row, hmem, by simp [hlen]⟩
    unfold setRange
    rw [hempty2]
    simp only [Bool.false_eq_true, if_false, hparse]
    rw [if_pos hshape2]

/-- Witness for C6: write `[[1,2],[3,4]]` into `A1:B2`, read it back raw, and
    reject the ragged matrix `[[1,2],[3]]`. -/
theorem set_then_get_range_raw_witness :
    (∃ e1 res1 res, setRange 4 emptyEngine emptyReg "S" "A1:B2"
          [[.num 1, .num 2], [.num 3, .num 4]] = .ok (e1, res1)
        ∧ getRange 4 e1 emptyReg "S" "A1:B2" "raw" = .ok res
        ∧ res.rows.length = 2
        ∧ ∀ i < 2, ∀ j < 2,
            ((res.rows.getD i []).getD j ⟨"", none, none⟩).raw
              = some (([[Value.num 1, Value.num 2],
                  [Value.num 3, Value.num 4]].getD i []).getD j .undef))
    ∧ setRange 4 emptyEngine emptyReg "S" "A1:B2" [[.num 1, .num 2], [.num 3]]
        = .error "values shape 2x2 does not match range size 2x2" := by
  have h := set_then_get_range_raw 4 emptyEngine emptyReg "S" "A1:B2"
    ⟨"S", "A1", "B2", 1, 2, 1, 2⟩ [[.num 1, .num 2], [.num 3, .num 4]]
    rfl (by simp)
    (by intro row hr
        rcases List.mem_cons.mp hr with h1 | h1
        · subst h1; rfl
        · rcases List.mem_cons.mp h1 with h2 | h2
          · subst h2; rfl
          · exact absurd h2 (by simp))
  obtain ⟨⟨e1, res1, res, h1, h2, h3, h4⟩, h5⟩ := h
  refine ⟨⟨e1, res1, res, h1, h2, h3, h4⟩, ?_⟩
  have := h5 [[.num 1, .num 2], [.num 3]] (by simp)
    (Or.inr ⟨[.num 3], by simp, by simp⟩)
  simpa using this

/-- Witness for C9: register under "Sum", look up the case-variant "sUM". -/
theorem registry_case_insensitive_witness :
    ((⟨[], []⟩ : BuiltinRegistry ℕ).register "Sum" 7).has "sUM" = true
    ∧ ((⟨[], []⟩ : BuiltinRegistry ℕ).register "Sum" 7).get "sUM"
        = ((⟨[], []⟩ : BuiltinRegistry ℕ).register "Sum" 7).get "Sum"
    ∧ ((⟨[], []⟩ : BuiltinRegistry ℕ).register "Sum" 7).get "sUM" = some 7 :=
  registry_case_insensitive (⟨[], []⟩ : BuiltinRegistry ℕ) "Sum" "sUM" 7 (by decide)

end Autosheet
